import Mathlib

/-!
# Struct-to-struct mapper: a shallow embedding of `mapper.go`

The Go package exposes one operation, `Map(in, out interface{}) error`, built from
`getFields`, `getFieldMap`, `getTypeName` and `mapValues`.  All four work through the
`reflect` package, so the embedding starts with a small model of the part of `reflect`
the code touches: kinds, types, struct-field descriptors, and dynamic values.

Conventions.

* A Go `map[string]string` (the correspondence table) is an association list with
  pairwise distinct keys; `FieldMap.set` is the key-overwriting assignment `m[k] = v`.
* `range` over a Go map yields its entries in an unspecified order.  `mapValues`
  therefore receives the sequence in which `range` yields the entries, and `Map`
  receives a function `ρ` choosing that sequence for the table it built.
* A run-time panic is an outcome of its own (`Outcome.panic`), distinct from a returned
  error.
* A struct value lists the fields its type declares and, apart from them, the fields
  promoted from its embedded structs, through which `reflect.Value.FieldByName` also
  searches.  Embedding is modelled one level deep and by value; the value of an
  embedded struct field is the values of the fields promoted from it.
* Floating-point values are carried as bit patterns.  The code never computes with
  them, but it moves a `float32` through `float64` and back (`Float`, `SetFloat`),
  which is exact for every number and turns a signalling NaN into a quiet one.
* A map value is a reference to a map in memory (`Heap`).  The code copies references
  and never reads or writes the maps themselves, so `Map` does not take the heap.
-/

namespace Mapper

/-! ## The model of `reflect` -/

/-- The kinds of `reflect.Kind`, in declaration order. -/
inductive Kind where
  | invalid | bool | int | int8 | int16 | int32 | int64
  | uint | uint8 | uint16 | uint32 | uint64 | uintptr
  | float32 | float64 | complex64 | complex128
  | array | chan | func | interface | map | ptr | slice | string | struct | unsafePointer
  deriving DecidableEq, Repr

/-- The text `reflect.Kind.String` prints for a kind. -/
def Kind.name : Kind → String
  | .invalid => "invalid" | .bool => "bool" | .int => "int" | .int8 => "int8"
  | .int16 => "int16" | .int32 => "int32" | .int64 => "int64" | .uint => "uint"
  | .uint8 => "uint8" | .uint16 => "uint16" | .uint32 => "uint32" | .uint64 => "uint64"
  | .uintptr => "uintptr" | .float32 => "float32" | .float64 => "float64"
  | .complex64 => "complex64" | .complex128 => "complex128" | .array => "array"
  | .chan => "chan" | .func => "func" | .interface => "interface" | .map => "map"
  | .ptr => "ptr" | .slice => "slice" | .string => "string" | .struct => "struct"
  | .unsafePointer => "unsafe.Pointer"

/-- Go types, up to identity.  `basic k` is the predeclared type of kind `k` (`string`,
`int`, `bool`, ...); `named n k` is any other type that is identified by its printed
form `n` (a defined type such as `mapper_test.Target`, or a type literal) and has
kind `k`. -/
inductive GoType where
  | basic (k : Kind)
  | named (n : String) (k : Kind)
  | map (key elem : GoType)
  | slice (elem : GoType)
  | ptr (elem : GoType)
  deriving DecidableEq, Repr

/-- The kind of a type: `reflect.Type.Kind`. -/
def GoType.Kind : GoType → Kind
  | .basic k => k
  | .named _ k => k
  | .map _ _ => .map
  | .slice _ => .slice
  | .ptr _ => .ptr

/-- The printed form of a type: `reflect.Type.String`. -/
def GoType.toString : GoType → String
  | .basic k => k.name
  | .named n _ => n
  | .map k e => "map[" ++ k.toString ++ "]" ++ e.toString
  | .slice e => "[]" ++ e.toString
  | .ptr e => "*" ++ e.toString

/-- What a struct field holds.  A float is the bit pattern of its IEEE 754 encoding
(32 bits for a `float32`, 64 for a `float64`); a map value is a reference (`none` is
the nil map); `other` stands for a value of any kind the mapper does not copy. -/
inductive Value where
  | str (s : String)
  | int (i : Int)
  | bool (b : Bool)
  | float (bits : Nat)
  | mapRef (addr : Option Nat)
  | other (repr : Nat)
  deriving DecidableEq, Repr

/-- Whether a value is a value of the given kind. -/
def Value.hasKind : Value → Kind → Bool
  | .str _, .string => true
  | .int _, .int => true
  | .bool _, .bool => true
  | .float x, .float32 => decide (x < 2 ^ 32)
  | .float x, .float64 => decide (x < 2 ^ 64)
  | .mapRef _, .map => true
  | .other _, k =>
      !(k == .string || k == .int || k == .bool || k == .float32 || k == .float64 || k == .map)
  | _, _ => false

/-- A field descriptor, `reflect.StructField`: `Tag` is the value stored under the key
`map` in the field's tag, as returned by `field.Tag.Get("map")` (the empty string when
the key is absent); `Exported` says whether the field name is exported. -/
structure StructField where
  Name : String
  Typ : GoType
  Tag : String
  Exported : Bool
  deriving DecidableEq, Repr

/-- A field of a live struct value: its descriptor and its current value. -/
structure Field extends StructField where
  Val : Value
  deriving DecidableEq, Repr

/-- A struct value.  Its type is `GoType.named typeName Kind.struct`; `fields` are the
fields the type declares, in order (an embedded struct among them under the name of
its type), and `promoted` the fields of its embedded structs, each with the name of the
embedded field it belongs to. -/
structure Struct where
  typeName : String
  fields : List Field
  promoted : List (String × Field)
  deriving DecidableEq, Repr

/-- The type of a struct value. -/
def Struct.typ (s : Struct) : GoType := .named s.typeName .struct

/-- Every field holds a value of the kind of its declared type. -/
def Struct.WellTyped (s : Struct) : Prop :=
  (∀ f ∈ s.fields, f.Val.hasKind f.Typ.Kind = true) ∧
  (∀ p ∈ s.promoted, p.2.Val.hasKind p.2.Typ.Kind = true)

instance (s : Struct) : Decidable s.WellTyped := by
  unfold Struct.WellTyped; infer_instance

/-- An argument of static type `interface{}`.
`val t v` is a value whose type `t` is neither a struct nor a pointer type. -/
inductive Iface where
  | nil
  | val (t : GoType) (v : Value)
  | struct (s : Struct)
  | ptrStruct (s : Struct)
  | ptrVal (t : GoType) (v : Value)
  | nilPtr (t : GoType)
  deriving DecidableEq, Repr

/-- A type descriptor, `reflect.Type`: the type and, for a struct type, its declared
fields (`NumField`, `Field(i)`). -/
structure RType where
  ty : GoType
  fields : List StructField
  deriving DecidableEq, Repr

/-- The kind reported by `reflect.Type.Kind`. -/
def RType.Kind (t : RType) : Kind := t.ty.Kind

/-- The text of `reflect.Type.String`, which `%s` prints for a `reflect.Type`. -/
def RType.toString (t : RType) : String := t.ty.toString

/-- The function `reflect.TypeOf`: `none` is the nil `reflect.Type` of a nil interface. -/
def TypeOf : Iface → Option RType
  | .nil => none
  | .val t _ => some ⟨t, []⟩
  | .struct s => some ⟨s.typ, s.fields.map (·.toStructField)⟩
  | .ptrStruct s => some ⟨.ptr s.typ, []⟩
  | .ptrVal t _ => some ⟨.ptr t, []⟩
  | .nilPtr t => some ⟨.ptr t, []⟩

/-- The run-time panics the code can reach. -/
inductive Panic where
  /-- method call on a nil `reflect.Type` -/
  | nilType
  /-- reflect: NumField of non-struct type -/
  | numFieldOfNonStruct
  /-- reflect: call of reflect.Value.FieldByName on a zero or non-struct Value -/
  | fieldByNameOfNonStruct
  /-- reflect: call of reflect.Value.Type on zero Value -/
  | typeOfZeroValue
  /-- a setter on a Value that is unaddressable or was obtained from an unexported field -/
  | notAssignable
  /-- reflect.Value.Set with an operand obtained from an unexported field -/
  | unexportedOperand
  /-- an accessor (`Int`, `Bool`, `Float`) on a Value of another kind -/
  | accessorKind
  /-- reflect: call of reflect.Value.Interface on zero Value -/
  | interfaceOfZeroValue
  deriving DecidableEq, Repr

/-- A `reflect.Value`, as far as `mapValues` looks at it: the zero Value, a struct
(with its addressability), a pointer with the Value it points to, or anything else. -/
inductive RValue where
  | zero
  | struct (s : Struct) (addressable : Bool)
  | pointer (elem : RValue)
  | scalar (t : GoType) (v : Value)
  deriving DecidableEq, Repr

/-- The function `reflect.ValueOf`. -/
def ValueOf : Iface → RValue
  | .nil => .zero
  | .val t v => .scalar t v
  | .struct s => .struct s false
  | .ptrStruct s => .pointer (.struct s true)
  | .ptrVal t v => .pointer (.scalar t v)
  | .nilPtr _ => .pointer .zero

/-- The function `reflect.Indirect`: the pointee of a pointer, the Value itself otherwise. -/
def Indirect : RValue → RValue
  | .pointer e => e
  | v => v

/-- The field `reflect` finds under a name: the first declared field of that name or,
when there is none, the promoted field of that name if exactly one promoted field has
it (several of them hide one another). -/
def Struct.FieldByName (s : Struct) (name : String) : Option Field :=
  match s.fields.find? (fun f => f.Name = name) with
  | some f => some f
  | none =>
      match s.promoted.filter (fun p => p.2.Name = name) with
      | [p] => some p.2
      | _ => none

/-- The method `reflect.Value.FieldByName`: panics unless the receiver is a struct; `ok none` is
the zero Value returned for a name the struct does not declare. -/
def RValue.FieldByName (v : RValue) (name : String) : Except Panic (Option Field) :=
  match v with
  | .struct s _ => .ok (s.FieldByName name)
  | _ => .error .fieldByNameOfNonStruct

/-- The method `reflect.Value.String`: the string itself for a string, a placeholder otherwise. -/
def Field.String (f : Field) : String :=
  match f.Val with
  | .str s => s
  | _ => "<" ++ f.Typ.toString ++ " Value>"

/-- The method `reflect.Value.Int`. -/
def Field.Int (f : Field) : Option Int :=
  match f.Val with
  | .int i => some i
  | _ => none

/-- The method `reflect.Value.Bool`. -/
def Field.Bool (f : Field) : Option Bool :=
  match f.Val with
  | .bool b => some b
  | _ => none

/-- The method `reflect.Value.Float`, as a bit pattern. -/
def Field.Float (f : Field) : Option Nat :=
  match f.Val with
  | .float x => some x
  | _ => none

/-- The bit pattern of a `float32` is a signalling NaN: exponent all ones, fraction not
zero, and the quiet bit, the top bit of the fraction, clear. -/
def isSignallingNaN32 (bits : Nat) : Bool :=
  (bits / 2 ^ 23) % 2 ^ 8 == 255 && bits % 2 ^ 23 != 0 && (bits / 2 ^ 22) % 2 == 0

/-- The conversion `float32(float64(x))` on the bits of a `float32`, which is what
`SetFloat(Float())` does to a field of kind float32 (`Float` widens the field to
`float64`, `SetFloat` narrows it again), as the conversion instructions of amd64 and
arm64 perform it: every number and every quiet NaN comes back as it was, a signalling
NaN comes back with its quiet bit set. -/
def viaFloat64 (bits : Nat) : Nat :=
  if isSignallingNaN32 bits then bits + 2 ^ 22 else bits

/-- Store `v` in the first field called `name`. -/
def setVal (name : String) (v : Value) : List Field → List Field
  | [] => []
  | f :: fs => if f.Name = name then { f with Val := v } :: fs else f :: setVal name v fs

/-- Store `v` in the promoted fields called `name`; used when there is exactly one. -/
def setPromoted (name : String) (v : Value) (ps : List (String × Field)) :
    List (String × Field) :=
  ps.map (fun p => if p.2.Name = name then (p.1, { p.2 with Val := v }) else p)

/-- The struct with `v` stored in the field `FieldByName` finds under `name`. -/
def Struct.set (s : Struct) (name : String) (v : Value) : Struct :=
  match s.fields.find? (fun f => f.Name = name) with
  | some _ => { s with fields := setVal name v s.fields }
  | none =>
      match s.promoted.filter (fun p => p.2.Name = name) with
      | [_] => { s with promoted := setPromoted name v s.promoted }
      | _ => s

/-! ## The program -/

/-- The errors of the package, one constructor per format string of its `var` block,
carrying the arguments `fmt.Errorf` is given. -/
inductive MapError where
  | errNotPointer (outType : String)
  | errInvalidMap (tag : String)
  | errInvalidConversion (inType outType : String)
  | errInvalidType (kind : String)
  deriving DecidableEq, Repr

/-- The message of an error: the format string with its arguments filled in. -/
def MapError.Error : MapError → String
  | .errNotPointer t => "expected parameter \x27out\x27 to be of type pointer, but was " ++ t
  | .errInvalidMap tag => "invalid map specified: " ++ tag
  | .errInvalidConversion a b => "cannot map " ++ a ++ " to " ++ b
  | .errInvalidType k => "type " ++ k ++ " is not supported"

/-- How a call ends: it returns nil, returns an error, or panics. -/
inductive Outcome where
  | ok
  | error (e : MapError)
  | panic (p : Panic)
  deriving DecidableEq, Repr

/-- The function `strings.Split` for a one-character separator. -/
def Split (s : String) (sep : Char) : List String :=
  (s.toList.splitOn sep).map String.mk

/-- The correspondence table `map[string]string`, source field name to target field
name. -/
abbrev FieldMap := List (String × String)

/-- The assignment `m[k] = v`. -/
def FieldMap.set : FieldMap → String → String → FieldMap
  | [], k, v => [(k, v)]
  | (k', v') :: rest, k, v =>
      if k' = k then (k, v) :: rest else (k', v') :: FieldMap.set rest k v

/-- Source `getTypeName`: the last `.`-separated part of the printed type. -/
def getTypeName (t : RType) : String :=
  let full := t.toString
  let parts := Split full '.'
  parts.getLastD ""

/-- Source `getFields`: the declared fields `t.Field(0) .. t.Field(t.NumField()-1)`.
`NumField` dereferences a nil `reflect.Type` and panics on a non-struct type. -/
def getFields (t : Option RType) : Except Panic (List StructField) :=
  match t with
  | none => .error .nilType
  | some t =>
      if t.Kind ≠ .struct then .error .numFieldOfNonStruct
      else .ok ((List.range t.fields.length).filterMap (fun i => t.fields.get? i))

/-- The inner loop of `getFieldMap`, over the `;`-separated parts of one tag. -/
def getFieldMap.maps (tag name typeName : String) :
    List String → FieldMap → Except MapError FieldMap
  | [], out => .ok out
  | m :: ms, out =>
      match Split m ':' with
      | [p0, p1] =>
          if p0 ≠ typeName then getFieldMap.maps tag name typeName ms out
          else getFieldMap.maps tag name typeName ms (out.set name p1)
      | _ => .error (.errInvalidMap tag)

/-- The outer loop of `getFieldMap`, over the source fields. -/
def getFieldMap.loop (outType : RType) :
    List StructField → FieldMap → Except MapError FieldMap
  | [], out => .ok out
  | field :: fs, out =>
      let tag := field.Tag
      if tag = "" then getFieldMap.loop outType fs out
      else
        match getFieldMap.maps tag field.Name (getTypeName outType) (Split tag ';') out with
        | .error e => .error e
        | .ok out' => getFieldMap.loop outType fs out'

/-- Source `getFieldMap`. -/
def getFieldMap (fs : List StructField) (outType : RType) : Except MapError FieldMap :=
  getFieldMap.loop outType fs []

/-- A setter of `reflect.Value` on the target field `outField`, found under the name
`target`: it panics unless the target struct is addressable and the field exported,
and otherwise stores `v`. -/
def assign (out : Iface) (target : String) (outField : Field) (v : Value) :
    Outcome ⊕ Iface :=
  match out with
  | .ptrStruct s =>
      if outField.Exported then .inr (.ptrStruct (s.set target v))
      else .inl (.panic .notAssignable)
  | _ => .inl (.panic .notAssignable)

/-- The body of the loop of `mapValues` for one entry: `inl o` leaves the function with
outcome `o`, `inr out'` goes on to the next entry with the target in state `out'`. -/
def mapValues.entry (inp out : Iface) (source target : String) : Outcome ⊕ Iface :=
  match (ValueOf inp).FieldByName source with
  | .error p => .inl (.panic p)
  | .ok inField? =>
  match (Indirect (ValueOf out)).FieldByName target with
  | .error p => .inl (.panic p)
  | .ok outField? =>
  match inField?, outField? with
  | none, _ => .inl (.panic .typeOfZeroValue)
  | some _, none => .inl (.panic .typeOfZeroValue)
  | some inField, some outField =>
      if inField.Typ ≠ outField.Typ then
        .inl (.error (.errInvalidConversion inField.Typ.toString outField.Typ.toString))
      else
        let kind := inField.Typ.Kind
        match kind with
        | .string => assign out target outField (.str inField.String)
        | .int =>
            match inField.Int with
            | none => .inl (.panic .accessorKind)
            | some i => assign out target outField (.int i)
        | .bool =>
            match inField.Bool with
            | none => .inl (.panic .accessorKind)
            | some b => assign out target outField (.bool b)
        | .float32 =>
            match inField.Float with
            | none => .inl (.panic .accessorKind)
            | some x => assign out target outField (.float (viaFloat64 x))
        | .float64 =>
            match inField.Float with
            | none => .inl (.panic .accessorKind)
            | some x => assign out target outField (.float x)
        | .map =>
            match assign out target outField inField.Val with
            | .inl o => .inl o
            | .inr out' =>
                if inField.Exported then .inr out' else .inl (.panic .unexportedOperand)
        | _ => .inl (.error (.errInvalidType kind.name))

/-- The loop of `mapValues` over the entries in the order `range` yields them. -/
def mapValues.loop (inp : Iface) : List (String × String) → Iface → Outcome × Iface
  | [], out => (.ok, out)
  | (source, target) :: rest, out =>
      match mapValues.entry inp out source target with
      | .inl o => (o, out)
      | .inr out' => mapValues.loop inp rest out'

/-- Source `mapValues`; `m` lists the entries of the table in the order `range` yields
them.  The result is what the call returns and the state of the target afterwards. -/
def mapValues (inp out : Iface) (m : List (String × String)) : Outcome × Iface :=
  match mapValues.loop inp m out with
  | (.ok, out') =>
      match Indirect (ValueOf out') with
      | .zero => (.panic .interfaceOfZeroValue, out')
      | _ => (.ok, out')
  | r => r

/-- Source `Map`; `ρ` gives the order in which `range` yields the entries of a table.
The error returned by `mapValues` is dropped: after the call `Map` returns nil. -/
def Map (ρ : FieldMap → List (String × String)) (inp out : Iface) : Outcome × Iface :=
  match TypeOf out with
  | none => (.panic .nilType, out)
  | some outType =>
      if outType.Kind ≠ .ptr then (.error (.errNotPointer outType.toString), out)
      else
        let inType := TypeOf inp
        match getFields inType with
        | .error p => (.panic p, out)
        | .ok fields =>
            match getFieldMap fields outType with
            | .error err => (.error err, out)
            | .ok fieldMap =>
                match mapValues inp out (ρ fieldMap) with
                | (.panic p, out') => (.panic p, out')
                | (_, out') => (.ok, out')

/-! ## Notions used to state the properties -/

/-- The type of a struct value and the descriptors of its fields, declared and
promoted: all of it but the values. -/
def Struct.shape (s : Struct) : String × List StructField × List (String × StructField) :=
  (s.typeName, s.fields.map (·.toStructField),
    s.promoted.map (fun p => (p.1, p.2.toStructField)))

/-- The struct `t'` has the type and the field descriptors of `t`, and every field of
`t`, declared or promoted, whose name does not satisfy `P` holds in `t'` the value it
holds in `t`. -/
def Struct.AgreesOutside (P : String → Prop) (t t' : Struct) : Prop :=
  t'.shape = t.shape ∧
  (∀ i fld, t.fields.get? i = some fld → ¬ P fld.Name → t'.fields.get? i = some fld) ∧
  (∀ i p, t.promoted.get? i = some p → ¬ P p.2.Name → t'.promoted.get? i = some p)

/-- The value the copy of a source field puts into the target: the value of the field,
a `float32` having passed through `float64` and back. -/
def Field.copied (f : Field) : Value :=
  match f.Typ.Kind, f.Val with
  | .float32, .float x => .float (viaFloat64 x)
  | _, v => v

/-- The field is a `float32` holding a signalling NaN. -/
def holdsSignallingNaN (f : Field) : Bool :=
  match f.Typ.Kind, f.Val with
  | .float32, .float x => isSignallingNaN32 x
  | _, _ => false

/-- One entry of an annotation read as a (type-name, field-name) pair: the entry has
to split on `:` into exactly two parts. -/
def parseEntry (e : String) : Option (String × String) :=
  match Split e ':' with
  | [a, b] => some (a, b)
  | _ => none

/-- The (type-name, field-name) pairs an annotation lists, in the order it lists them.
The empty annotation lists none. -/
def tagEntries (tag : String) : List (String × String) :=
  if tag = "" then [] else (Split tag ';').filterMap parseEntry

/-- A non-empty annotation one of whose `;`-separated entries does not split on `:`
into exactly two parts. -/
def MalformedTag (tag : String) : Prop :=
  tag ≠ "" ∧ ∃ e ∈ Split tag ';', (Split e ':').length ≠ 2

instance (tag : String) : Decidable (MalformedTag tag) := by
  unfold MalformedTag; infer_instance

/-- The name `g` is the target-field-name of an entry for the type name `T` in the
annotation of one of the fields `fs`. -/
def NamedAsTarget (T : String) (fs : List StructField) (g : String) : Prop :=
  ∃ fld ∈ fs, (T, g) ∈ tagEntries fld.Tag

/-- The field-name of the last of the entries `es` whose type-name is `T`. -/
def lastEntryFor (T : String) (es : List (String × String)) : Option String :=
  ((es.filter (fun e => e.1 = T)).getLast?).map (·.2)

/-- The entries of the annotation of the source field called `f`.  (Should several
fields carry the name `f`, which Go allows for the blank name `_` only, these are the
entries of their annotations, in declaration order.) -/
def entriesOf (fs : List StructField) (f : String) : List (String × String) :=
  (fs.filter (fun d => d.Name = f)).flatMap (fun d => tagEntries d.Tag)

/-- The lookup `m[k]` in a table. -/
def FieldMap.lookup : FieldMap → String → Option String
  | [], _ => none
  | (k', v') :: rest, k => if k' = k then some v' else FieldMap.lookup rest k

/-- The fields the type of an argument declares (none unless it is a struct). -/
def declaredFields (inp : Iface) : List StructField :=
  match TypeOf inp with
  | none => []
  | some t => t.fields

/-! ## Concrete records -/

/-- An exported field. -/
def mkField (name : String) (t : GoType) (tag : String) (v : Value) : Field :=
  { Name := name, Typ := t, Tag := tag, Exported := true, Val := v }

/-- The `Source` value of `TestMapper_Map`. -/
def testSource : Struct :=
  ⟨"mapper_test.Source",
    [mkField "AField" (.basic .string) "Target:A;Target2:A" (.str "test"),
     mkField "BField" (.basic .int) "Target:B" (.int 1),
     mkField "CField" (.basic .bool) "Target:C" (.bool true),
     mkField "DField" (.basic .float32) "Target:D" (.float 0x3f8ccccd),
     mkField "EField" (.basic .float64) "Target:E" (.float 0x3ff3333333333333),
     mkField "FField" (.map (.basic .string) (.basic .string)) "Target:F" (.mapRef (some 0)),
     mkField "GField" (.basic .string) "" (.str "")], []⟩

/-- The zero `Target{}` of `TestMapper_Map`. -/
def testTarget : Struct :=
  ⟨"mapper_test.Target",
    [mkField "A" (.basic .string) "" (.str ""),
     mkField "B" (.basic .int) "" (.int 0),
     mkField "C" (.basic .bool) "" (.bool false),
     mkField "D" (.basic .float32) "" (.float 0),
     mkField "E" (.basic .float64) "" (.float 0),
     mkField "F" (.map (.basic .string) (.basic .string)) "" (.mapRef none)], []⟩

/-- A source with one field `BField int` tagged `Target:B`. -/
def intSource : Struct :=
  ⟨"main.Source", [mkField "BField" (.basic .int) "Target:B" (.int 7)], []⟩

/-- A target `Target` whose field `B` is declared `string`. -/
def stringTarget : Struct :=
  ⟨"main.Target", [mkField "B" (.basic .string) "" (.str "old")], []⟩

/-- A target `Target` with a field `A` and a field `GField`, the name of an untagged
field of `testSource`. -/
def collidingTarget : Struct :=
  ⟨"main.Target",
    [mkField "A" (.basic .string) "" (.str "a0"),
     mkField "GField" (.basic .string) "" (.str "g0")], []⟩

/-- A source whose only field carries the annotation `Target:A;Target-B`. -/
def malformedSource : Struct :=
  ⟨"main.Source", [mkField "AField" (.basic .string) "Target:A;Target-B" (.str "x")], []⟩

/-- A source whose only field is tagged with a field name `Target` does not declare. -/
def missingSource : Struct :=
  ⟨"main.Source", [mkField "AField" (.basic .string) "Target:Missing" (.str "x")], []⟩

/-- The kinds `mapValues` copies, as the comment on `Map` lists them: string, int,
float32, float64, bool and map. -/
def supportedKinds : List Kind :=
  [.string, .int, .bool, .float32, .float64, .map]

/-- A source with a string field tagged `Target:A`, a field `FField map[string]string`
tagged `Target:F` and a field `NField int64` tagged `Target:N`. -/
def mixedSource : Struct :=
  ⟨"main.Source",
    [mkField "AField" (.basic .string) "Target:A" (.str "x"),
     mkField "FField" (.map (.basic .string) (.basic .string)) "Target:F" (.mapRef (some 1)),
     mkField "NField" (.basic .int64) "Target:N" (.other 5)], []⟩

/-- A target whose `A` is a `string`, whose `F` is a `map[string]int` and whose `N` is
an `int64`. -/
def mixedTarget : Struct :=
  ⟨"main.Target",
    [mkField "A" (.basic .string) "" (.str ""),
     mkField "F" (.map (.basic .string) (.basic .int)) "" (.mapRef none),
     mkField "N" (.basic .int64) "" (.other 0)], []⟩

/-- The target `mixedTarget` after the entry `AField → A` of `mixedSource` is copied. -/
def mixedTargetA : Struct :=
  ⟨"main.Target",
    [mkField "A" (.basic .string) "" (.str "x"),
     mkField "F" (.map (.basic .string) (.basic .int)) "" (.mapRef none),
     mkField "N" (.basic .int64) "" (.other 0)], []⟩

/-- The scalar kinds among the supported ones. -/
def scalarKinds : List Kind :=
  [.string, .int, .bool, .float32, .float64]

/-- A source whose field `AField` names two fields of `Target` in its annotation. -/
def doubleSource : Struct :=
  ⟨"main.Source", [mkField "AField" (.basic .string) "Target:A;Target:B" (.str "x")], []⟩

/-- A target `Target` with two string fields `A` and `B`. -/
def abTarget : Struct :=
  ⟨"main.Target",
    [mkField "A" (.basic .string) "" (.str ""),
     mkField "B" (.basic .string) "" (.str "")], []⟩

/-! ## Maps in memory -/

/-- The maps in memory: for each address, the entries of the map stored there, key to
element, both in printed form. -/
abbrev Heap := Nat → String → Option String

/-- The assignment `m[k] = x` through the map value `m`; `none` when `m` is the nil map
(the assignment panics) or not a map. -/
def Heap.store (h : Heap) (m : Value) (k x : String) : Option Heap :=
  match m with
  | .mapRef (some a) => some (fun a' k' => if a' = a ∧ k' = k then some x else h a' k')
  | _ => none

/-- The read `m[k]` through the map value `m`. -/
def Heap.load (h : Heap) (m : Value) (k : String) : Option String :=
  match m with
  | .mapRef (some a) => h a k
  | _ => none

/-- A heap whose map at address 0 is `{"k": "v"}`. -/
def testHeap : Heap := fun a k => if a = 0 ∧ k = "k" then some "v" else none

/-! ## Writes -/

/-- The target after the writes `ws` (field name, value), performed in order. -/
def applyWrites (ws : List (String × Value)) (t : Struct) : Struct :=
  ws.foldl (fun s w => s.set w.1 w.2) t

/-- The value copied from the source field called `f` (a placeholder when there is
none). -/
def Struct.valueOf (src : Struct) (f : String) : Value :=
  match src.FieldByName f with
  | some sf => sf.copied
  | none => .other 0

/-- The entry `e` of a table can be copied from `src` into `t`: both fields exist, with
the same type of a supported kind, the target field is exported, and so is the source
field when it is a map. -/
def Copyable (src t : Struct) (e : String × String) : Prop :=
  ∃ sf tf, src.FieldByName e.1 = some sf ∧ t.FieldByName e.2 = some tf ∧
    sf.Typ = tf.Typ ∧ sf.Typ.Kind ∈ supportedKinds ∧ tf.Exported = true ∧
    (sf.Typ.Kind = Kind.map → sf.Exported = true)

/-- A source with two string fields that both name the field `G` of `Target`. -/
def twoToOneSource : Struct :=
  ⟨"main.Source",
    [mkField "F1" (.basic .string) "Target:G" (.str "a"),
     mkField "F2" (.basic .string) "Target:G" (.str "b")], []⟩

/-- A target `Target` with one string field `G`. -/
def gTarget : Struct :=
  ⟨"main.Target", [mkField "G" (.basic .string) "" (.str "")], []⟩

/-- A source whose field is tagged with the unexported field `a` of `Target`. -/
def lowerSource : Struct :=
  ⟨"main.Source", [mkField "AField" (.basic .string) "Target:a" (.str "x")], []⟩

/-- A target `Target` whose only field `a string` is unexported. -/
def lowerTarget : Struct :=
  ⟨"main.Target",
    [{ Name := "a", Typ := .basic .string, Tag := "", Exported := false, Val := .str "" }], []⟩

/-- A source with two map fields, holding the maps at addresses 1 and 2, that both name
the field `F` of `Target`. -/
def twoMapSource : Struct :=
  ⟨"main.Source",
    [mkField "M1" (.map (.basic .string) (.basic .string)) "Target:F" (.mapRef (some 1)),
     mkField "M2" (.map (.basic .string) (.basic .string)) "Target:F" (.mapRef (some 2))], []⟩

/-- A target `Target` with one field `F map[string]string`, nil. -/
def mapTarget : Struct :=
  ⟨"main.Target",
    [mkField "F" (.map (.basic .string) (.basic .string)) "" (.mapRef none)], []⟩

/-- A heap in which every map is empty. -/
def emptyHeap : Heap := fun _ _ => none

/-- The field `A string` of the struct `Inner` embedded in `embeddingTarget`. -/
def innerA : Field := mkField "A" (.basic .string) "" (.str "a0")

/-- The field `C string` of the struct `Inner` embedded in `embeddingTarget`. -/
def innerC : Field := mkField "C" (.basic .string) "" (.str "c0")

/-- A target `Target` declared as `struct { Inner; B string }`, where `Inner` is
`struct { A string; C string }`: the fields `A` and `C` of the embedded `Inner` are
promoted. -/
def embeddingTarget : Struct :=
  ⟨"main.Target",
    [mkField "Inner" (.named "main.Inner" .struct) "" (.other 0),
     mkField "B" (.basic .string) "" (.str "b0")],
    [("Inner", innerA), ("Inner", innerC)]⟩

/-- A source with a field `AField string` tagged `Target:A` and an untagged field
`B string`. -/
def promotingSource : Struct :=
  ⟨"main.Source",
    [mkField "AField" (.basic .string) "Target:A" (.str "x"),
     mkField "B" (.basic .string) "" (.str "sb")], []⟩

/-- A source with a field `DField float32` that holds the signalling NaN `0x7fa00000`,
tagged `Target:D`, and a field `NField int64` tagged `Target:N`. -/
def nanSource : Struct :=
  ⟨"main.Source",
    [mkField "DField" (.basic .float32) "Target:D" (.float 0x7fa00000),
     mkField "NField" (.basic .int64) "Target:N" (.other 5)], []⟩

/-- A target `Target` with a field `D float32` and a field `N int64`. -/
def nanTarget : Struct :=
  ⟨"main.Target",
    [mkField "D" (.basic .float32) "" (.float 0),
     mkField "N" (.basic .int64) "" (.other 0)], []⟩

/-- A source with a field `AField string` tagged `Target:A` and a field `SField Inner`
tagged `Target:Inner`. -/
def innerSource : Struct :=
  ⟨"main.Source",
    [mkField "AField" (.basic .string) "Target:A" (.str "x"),
     mkField "SField" (.named "main.Inner" .struct) "Target:Inner" (.other 0)], []⟩

/-! ## Supporting lemmas -/

theorem range_filterMap_get? {α : Type} (l : List α) :
    (List.range l.length).filterMap (fun i => l.get? i) = l := by
  induction l with
  | nil => rfl
  | cons a l ih =>
    rw [List.length_cons, List.range_succ_eq_map, List.filterMap_cons]
    simp only [List.get?_cons_zero, List.filterMap_map]
    congr 1

theorem getFields_struct (s : Struct) :
    getFields (TypeOf (.struct s)) = .ok (s.fields.map (·.toStructField)) := by
  have h := range_filterMap_get? (s.fields.map (·.toStructField))
  unfold getFields TypeOf
  simp only [RType.Kind, Struct.typ, GoType.Kind, ne_eq, not_true_eq_false, if_false]
  rw [h]

theorem setVal_length (n : String) (v : Value) (l : List Field) :
    (setVal n v l).length = l.length := by
  induction l with
  | nil => rfl
  | cons a l ih =>
    unfold setVal
    split <;> simp [ih]

theorem setVal_desc (n : String) (v : Value) (l : List Field) :
    (setVal n v l).map (·.toStructField) = l.map (·.toStructField) := by
  induction l with
  | nil => rfl
  | cons a l ih =>
    unfold setVal
    split <;> simp [ih]

theorem setVal_get?_of_ne (n : String) (v : Value) (l : List Field) (i : Nat) (fld : Field)
    (h : l.get? i = some fld) (hne : fld.Name ≠ n) : (setVal n v l).get? i = some fld := by
  induction l generalizing i with
  | nil => simp at h
  | cons a l ih =>
    unfold setVal
    cases i with
    | zero =>
      simp only [List.get?_cons_zero, Option.some.injEq] at h
      subst h
      simp [hne]
    | succ j =>
      simp only [List.get?_cons_succ] at h
      split
      · simpa using h
      · simpa using ih j h

theorem setVal_find?_ne (n g : String) (v : Value) (l : List Field) (hne : g ≠ n) :
    (setVal n v l).find? (fun f => f.Name = g) = l.find? (fun f => f.Name = g) := by
  induction l with
  | nil => rfl
  | cons a l ih =>
    unfold setVal
    split
    · rename_i h
      have : ¬ a.Name = g := by rw [h]; exact fun h' => hne h'.symm
      simp [List.find?_cons, this]
    · by_cases hg : a.Name = g
      · simp [List.find?_cons, hg]
      · simp [List.find?_cons, hg, ih]

theorem setVal_find?_eq (n : String) (v : Value) (l : List Field) :
    (setVal n v l).find? (fun f => f.Name = n) =
      (l.find? (fun f => f.Name = n)).map (fun f => { f with Val := v }) := by
  induction l with
  | nil => rfl
  | cons a l ih =>
    unfold setVal
    split
    · rename_i h
      simp [List.find?_cons, h]
    · rename_i h
      simp [List.find?_cons, h, ih]

theorem setVal_of_find?_none (n : String) (v : Value) (l : List Field)
    (h : l.find? (fun f => f.Name = n) = none) : setVal n v l = l := by
  induction l with
  | nil => rfl
  | cons a l ih =>
    by_cases ha : a.Name = n
    · simp [List.find?_cons, ha] at h
    · simp only [List.find?_cons, ha, decide_False] at h
      simp [setVal, ha, ih h]

theorem setVal_overwrite (g : String) (v v' : Value) (l : List Field) :
    setVal g v (setVal g v' l) = setVal g v l := by
  induction l with
  | nil => rfl
  | cons a l ih =>
    by_cases h : a.Name = g
    · simp [setVal, h]
    · simp [setVal, h, ih]

theorem setVal_comm (g g' : String) (v v' : Value) (l : List Field) (hne : g ≠ g') :
    setVal g v (setVal g' v' l) = setVal g' v' (setVal g v l) := by
  induction l with
  | nil => rfl
  | cons a l ih =>
    by_cases h : a.Name = g
    · have h' : ¬ a.Name = g' := fun h2 => hne (h.symm.trans h2)
      simp [setVal, h, h', hne]
    · by_cases h' : a.Name = g'
      · simp [setVal, h, h', Ne.symm hne]
      · simp [setVal, h, h', ih]

theorem setVal_find?_isNone (n g : String) (v : Value) (l : List Field) :
    (setVal n v l).find? (fun f => f.Name = g) = none ↔
      l.find? (fun f => f.Name = g) = none := by
  by_cases h : g = n
  · subst h
    rw [setVal_find?_eq]
    cases l.find? (fun f => f.Name = g) <;> simp
  · rw [setVal_find?_ne n g v l h]

theorem setPromoted_desc (n : String) (v : Value) (ps : List (String × Field)) :
    (setPromoted n v ps).map (fun p => (p.1, p.2.toStructField))
      = ps.map (fun p => (p.1, p.2.toStructField)) := by
  unfold setPromoted
  rw [List.map_map]
  apply List.map_congr_left
  intro p _
  by_cases h : p.2.Name = n <;> simp [h]

theorem setPromoted_filter_ne (n g : String) (v : Value) (ps : List (String × Field))
    (hne : g ≠ n) :
    (setPromoted n v ps).filter (fun p => p.2.Name = g)
      = ps.filter (fun p => p.2.Name = g) := by
  induction ps with
  | nil => rfl
  | cons p ps ih =>
    have ih' : List.filter (fun p => decide (p.2.Name = g))
        (List.map (fun p => if p.2.Name = n then (p.1, { p.2 with Val := v }) else p) ps)
        = List.filter (fun p => decide (p.2.Name = g)) ps := ih
    by_cases h : p.2.Name = n
    · have hg : ¬ p.2.Name = g := fun h' => hne (h'.symm.trans h)
      have hg' : ¬ n = g := fun h' => hne h'.symm
      simp [setPromoted, List.filter_cons, h, hg, hg', ih']
    · by_cases hg : p.2.Name = g
      · subst hg
        simp only [setPromoted, List.map_cons, h, if_false, List.filter_cons,
          decide_True, if_true]
        rw [ih']
      · simp [setPromoted, List.filter_cons, h, hg, ih']

theorem setPromoted_filter_eq (n : String) (v : Value) (ps : List (String × Field)) :
    (setPromoted n v ps).filter (fun p => p.2.Name = n)
      = (ps.filter (fun p => p.2.Name = n)).map (fun p => (p.1, { p.2 with Val := v })) := by
  induction ps with
  | nil => rfl
  | cons p ps ih =>
    have ih' : List.filter (fun p => decide (p.2.Name = n))
        (List.map (fun p => if p.2.Name = n then (p.1, { p.2 with Val := v }) else p) ps)
        = (ps.filter (fun p => p.2.Name = n)).map
            (fun p => (p.1, { p.2 with Val := v })) := ih
    by_cases h : p.2.Name = n <;> simp [setPromoted, List.filter_cons, h, ih']

theorem setPromoted_filter_length (n g : String) (v : Value) (ps : List (String × Field)) :
    ((setPromoted n v ps).filter (fun p => p.2.Name = g)).length
      = (ps.filter (fun p => p.2.Name = g)).length := by
  by_cases h : g = n
  · subst h
    rw [setPromoted_filter_eq, List.length_map]
  · rw [setPromoted_filter_ne n g v ps h]

theorem setPromoted_get?_of_ne (n : String) (v : Value) (ps : List (String × Field))
    (i : Nat) (p : String × Field) (h : ps.get? i = some p) (hne : p.2.Name ≠ n) :
    (setPromoted n v ps).get? i = some p := by
  simp only [List.get?_eq_getElem?] at h ⊢
  unfold setPromoted
  rw [List.getElem?_map, h]
  simp [hne]

theorem setPromoted_overwrite (g : String) (v v' : Value) (ps : List (String × Field)) :
    setPromoted g v (setPromoted g v' ps) = setPromoted g v ps := by
  unfold setPromoted
  rw [List.map_map]
  apply List.map_congr_left
  intro p _
  by_cases h : p.2.Name = g <;> simp [h]

theorem setPromoted_comm (g g' : String) (v v' : Value) (ps : List (String × Field))
    (hne : g ≠ g') :
    setPromoted g v (setPromoted g' v' ps) = setPromoted g' v' (setPromoted g v ps) := by
  unfold setPromoted
  rw [List.map_map, List.map_map]
  apply List.map_congr_left
  intro p _
  by_cases h : p.2.Name = g
  · have h' : ¬ p.2.Name = g' := fun h2 => hne (h.symm.trans h2)
    simp [h, h', hne]
  · by_cases h' : p.2.Name = g' <;> simp [h, h', Ne.symm hne]

theorem Struct.eq_of (a b : Struct) (h1 : a.typeName = b.typeName)
    (h2 : a.fields = b.fields) (h3 : a.promoted = b.promoted) : a = b := by
  cases a
  cases b
  simp_all

theorem Struct.set_typeName (t : Struct) (n : String) (v : Value) :
    (t.set n v).typeName = t.typeName := by
  unfold Struct.set
  split
  · rfl
  · split <;> rfl

theorem Struct.set_fields (t : Struct) (n : String) (v : Value) :
    (t.set n v).fields = setVal n v t.fields := by
  unfold Struct.set
  split
  · rfl
  · rename_i h
    rw [setVal_of_find?_none n v t.fields h]
    split <;> rfl

theorem length_eq_one_elim {α : Type} (l : List α) (h : l.length = 1) : ∃ a, l = [a] := by
  cases l with
  | nil => simp at h
  | cons a r =>
    cases r with
    | nil => exact ⟨a, rfl⟩
    | cons b r => simp at h

theorem Struct.set_promoted (t : Struct) (n : String) (v : Value) :
    (t.set n v).promoted =
      if t.fields.find? (fun f => f.Name = n) = none ∧
          (t.promoted.filter (fun p => p.2.Name = n)).length = 1
      then setPromoted n v t.promoted else t.promoted := by
  unfold Struct.set
  split
  · rename_i f h
    simp [h]
  · rename_i h
    split
    · rename_i p hp
      simp [h, hp]
    · rename_i hp
      have : ¬ (t.promoted.filter (fun p => p.2.Name = n)).length = 1 := by
        intro hl
        obtain ⟨p, hp'⟩ := length_eq_one_elim _ hl
        exact hp p hp'
      simp [this]

theorem Struct.set_shape (t : Struct) (n : String) (v : Value) :
    (t.set n v).shape = t.shape := by
  unfold Struct.shape
  rw [Struct.set_typeName, Struct.set_fields, Struct.set_promoted, setVal_desc]
  split
  · rw [setPromoted_desc]
  · rfl

theorem Struct.set_overwrite (t : Struct) (g : String) (v v' : Value) :
    (t.set g v').set g v = t.set g v := by
  apply Struct.eq_of
  · simp only [Struct.set_typeName]
  · simp only [Struct.set_fields, setVal_overwrite]
  · simp only [Struct.set_promoted, Struct.set_fields, setVal_find?_isNone]
    by_cases hc : t.fields.find? (fun f => f.Name = g) = none ∧
        (t.promoted.filter (fun p => p.2.Name = g)).length = 1
    · simp only [hc, and_self, if_true, setPromoted_filter_length, setPromoted_overwrite]
    · simp only [hc, if_false]

theorem Struct.set_comm (t : Struct) (g g' : String) (v v' : Value) (hne : g ≠ g') :
    (t.set g' v').set g v = (t.set g v).set g' v' := by
  apply Struct.eq_of
  · simp only [Struct.set_typeName]
  · simp only [Struct.set_fields]
    exact setVal_comm g g' v v' t.fields hne
  · simp only [Struct.set_promoted, Struct.set_fields, setVal_find?_isNone]
    by_cases hc : t.fields.find? (fun f => f.Name = g) = none ∧
        (t.promoted.filter (fun p => p.2.Name = g)).length = 1 <;>
    by_cases hc' : t.fields.find? (fun f => f.Name = g') = none ∧
        (t.promoted.filter (fun p => p.2.Name = g')).length = 1
    · simp only [hc, hc', and_self, if_true, setPromoted_filter_length]
      exact setPromoted_comm g g' v v' t.promoted hne
    · simp only [hc, hc', and_self, if_true, if_false, setPromoted_filter_length]
    · simp only [hc, hc', and_self, if_true, if_false, setPromoted_filter_length]
    · simp only [hc, hc', if_false]

theorem FieldByName_set_ne (t : Struct) (n g : String) (v : Value) (hne : g ≠ n) :
    (t.set n v).FieldByName g = t.FieldByName g := by
  have hp : (t.set n v).promoted.filter (fun p => p.2.Name = g)
      = t.promoted.filter (fun p => p.2.Name = g) := by
    rw [Struct.set_promoted]
    split
    · exact setPromoted_filter_ne n g v t.promoted hne
    · rfl
  unfold Struct.FieldByName
  rw [Struct.set_fields, setVal_find?_ne n g v t.fields hne, hp]

theorem FieldByName_set_eq (t : Struct) (n : String) (v : Value) :
    (t.set n v).FieldByName n = (t.FieldByName n).map (fun f => { f with Val := v }) := by
  unfold Struct.FieldByName
  rw [Struct.set_fields, Struct.set_promoted, setVal_find?_eq]
  cases hf : t.fields.find? (fun f => f.Name = n) with
  | some f => simp
  | none =>
    simp only [Option.map_none', true_and]
    by_cases hl : (t.promoted.filter (fun p => p.2.Name = n)).length = 1
    · rw [if_pos hl, setPromoted_filter_eq]
      obtain ⟨p, hp⟩ := length_eq_one_elim _ hl
      rw [hp]
      rfl
    · rw [if_neg hl]
      cases hp : t.promoted.filter (fun p => p.2.Name = n) with
      | nil => rfl
      | cons p r =>
        cases r with
        | nil => rw [hp] at hl; exact absurd rfl hl
        | cons q r => rfl

theorem FieldByName_shape (t u : Struct) (g : String) (h : u.shape = t.shape) :
    (u.FieldByName g).map (·.toStructField) = (t.FieldByName g).map (·.toStructField) := by
  simp only [Struct.shape, Prod.mk.injEq] at h
  obtain ⟨-, hf, hp⟩ := h
  have key : ∀ l : List Field, (l.find? (fun f => f.Name = g)).map (·.toStructField)
      = (l.map (·.toStructField)).find? (fun d => d.Name = g) := by
    intro l
    rw [List.find?_map]
    rfl
  have keyp : ∀ ps : List (String × Field),
      (ps.filter (fun p => p.2.Name = g)).map (fun p => (p.1, p.2.toStructField))
        = (ps.map (fun p => (p.1, p.2.toStructField))).filter (fun q => q.2.Name = g) := by
    intro ps
    rw [List.filter_map]
    rfl
  have hfind : (u.fields.find? (fun f => f.Name = g)).map (·.toStructField)
      = (t.fields.find? (fun f => f.Name = g)).map (·.toStructField) := by
    rw [key, key, hf]
  have hfilt : (u.promoted.filter (fun p => p.2.Name = g)).map
        (fun p => (p.1, p.2.toStructField))
      = (t.promoted.filter (fun p => p.2.Name = g)).map
        (fun p => (p.1, p.2.toStructField)) := by
    rw [keyp, keyp, hp]
  unfold Struct.FieldByName
  cases hu : u.fields.find? (fun f => f.Name = g) with
  | some uf =>
    cases ht : t.fields.find? (fun f => f.Name = g) with
    | some tf => rw [hu, ht] at hfind; simpa using hfind
    | none => rw [hu, ht] at hfind; cases hfind
  | none =>
    cases ht : t.fields.find? (fun f => f.Name = g) with
    | some tf => rw [hu, ht] at hfind; cases hfind
    | none =>
      simp only
      generalize u.promoted.filter (fun p => p.2.Name = g) = fu at hfilt ⊢
      generalize t.promoted.filter (fun p => p.2.Name = g) = ft at hfilt ⊢
      rcases fu with _ | ⟨p, _ | ⟨p', pr⟩⟩ <;>
      rcases ft with _ | ⟨q, _ | ⟨q', qr⟩⟩ <;>
      simp_all

theorem FieldByName_wellTyped (s : Struct) (hwt : s.WellTyped) (n : String) (f : Field)
    (h : s.FieldByName n = some f) : f.Val.hasKind f.Typ.Kind = true := by
  unfold Struct.FieldByName at h
  split at h
  · rename_i f' hf
    simp only [Option.some.injEq] at h
    subst h
    exact hwt.1 f' (List.mem_of_find?_eq_some hf)
  · split at h
    · rename_i p hp
      simp only [Option.some.injEq] at h
      subst h
      have : p ∈ s.promoted.filter (fun p => p.2.Name = n) := by rw [hp]; simp
      exact hwt.2 p (List.mem_filter.1 this).1
    · cases h

theorem Struct.set_fields_get? (t : Struct) (n : String) (v : Value) (i : Nat) (fld : Field)
    (h : t.fields.get? i = some fld) (hne : fld.Name ≠ n) :
    (t.set n v).fields.get? i = some fld := by
  rw [Struct.set_fields]
  exact setVal_get?_of_ne n v t.fields i fld h hne

theorem Struct.set_promoted_get? (t : Struct) (n : String) (v : Value) (i : Nat)
    (p : String × Field) (h : t.promoted.get? i = some p) (hne : p.2.Name ≠ n) :
    (t.set n v).promoted.get? i = some p := by
  rw [Struct.set_promoted]
  split
  · exact setPromoted_get?_of_ne n v t.promoted i p h hne
  · exact h


theorem Field.copied_of_kind_ne (f : Field) (h : f.Typ.Kind ≠ Kind.float32) :
    f.copied = f.Val := by
  unfold Field.copied
  split
  · rename_i hk _
    exact absurd hk h
  · rfl

/-- The copy changes nothing but a `float32` signalling NaN. -/
theorem Field.copied_of_not_signalling (f : Field) (h : holdsSignallingNaN f = false) :
    f.copied = f.Val := by
  unfold Field.copied
  unfold holdsSignallingNaN at h
  split
  · rename_i x hk hv
    rw [hk, hv] at h
    simp only at h
    rw [hv]
    simp [viaFloat64, h]
  · rfl
theorem assign_inr (out out' : Iface) (g : String) (tf : Field) (v : Value)
    (h : assign out g tf v = .inr out') :
    ∃ t, out = .ptrStruct t ∧ tf.Exported = true ∧ out' = .ptrStruct (t.set g v) := by
  unfold assign at h
  split at h
  · split at h
    · rename_i s hexp
      exact ⟨s, rfl, hexp, by simpa using h.symm⟩
    · simp at h
  · simp at h

theorem FieldByName_ok (v : RValue) (n : String) (r : Option Field)
    (h : v.FieldByName n = .ok r) : ∃ s b, v = .struct s b ∧ r = s.FieldByName n := by
  unfold RValue.FieldByName at h
  split at h
  · rename_i s b
    exact ⟨s, b, rfl, by cases h; rfl⟩
  · cases h

theorem entry_inr (inp out out' : Iface) (f g : String)
    (h : mapValues.entry inp out f g = .inr out') :
    ∃ src t sf tf v, inp = .struct src ∧ out = .ptrStruct t ∧ src.FieldByName f = some sf ∧
      t.FieldByName g = some tf ∧ sf.Typ = tf.Typ ∧ tf.Exported = true ∧
      out' = .ptrStruct (t.set g v) ∧
      (sf.Val.hasKind sf.Typ.Kind = true → v = sf.copied) := by
  unfold mapValues.entry at h
  split at h
  · cases h
  rename_i inField? hin
  split at h
  · cases h
  rename_i outField? hout
  split at h
  · cases h
  · cases h
  rename_i sf tf
  split at h
  · cases h
  rename_i hty
  simp only [ne_eq, not_not] at hty
  obtain ⟨s, b, hs, hsf⟩ := FieldByName_ok _ _ _ hin
  obtain ⟨t, b', ht, htf⟩ := FieldByName_ok _ _ _ hout
  have hinp : inp = .struct s := by
    cases inp <;> simp [ValueOf] at hs
    exact hs.1 ▸ rfl
  have key : ∃ v, assign out g tf v = .inr out' ∧
      (sf.Val.hasKind sf.Typ.Kind = true → v = sf.copied) := by
    simp only at h
    split at h
    · rename_i hk
      refine ⟨_, h, ?_⟩
      intro hv
      rw [hk] at hv
      cases hval : sf.Val <;> simp [hval, Value.hasKind] at hv
      simp [Field.String, Field.copied, hk, hval]
    · rename_i hk
      split at h
      · cases h
      rename_i i hi
      refine ⟨_, h, ?_⟩
      intro _
      unfold Field.Int at hi
      unfold Field.copied
      split at hi <;> simp_all
    · rename_i hk
      split at h
      · cases h
      rename_i i hi
      refine ⟨_, h, ?_⟩
      intro _
      unfold Field.Bool at hi
      unfold Field.copied
      split at hi <;> simp_all
    · rename_i hk
      split at h
      · cases h
      rename_i i hi
      refine ⟨_, h, ?_⟩
      intro _
      unfold Field.Float at hi
      unfold Field.copied
      split at hi <;> simp_all
    · rename_i hk
      split at h
      · cases h
      rename_i i hi
      refine ⟨_, h, ?_⟩
      intro _
      unfold Field.Float at hi
      unfold Field.copied
      split at hi <;> simp_all
    · rename_i hk
      split at h
      · cases h
      rename_i o hass
      split at h
      · refine ⟨sf.Val, ?_, fun _ => ?_⟩
        · rw [hass, h]
        · simp [Field.copied, hk]
      · cases h
    · cases h
  obtain ⟨v, hv, hwk⟩ := key
  obtain ⟨t0, hout0, hexp, hout'⟩ := assign_inr _ _ _ _ _ hv
  subst hout0
  simp only [ValueOf, Indirect, RValue.struct.injEq] at ht
  obtain ⟨rfl, -⟩ := ht
  exact ⟨s, t0, sf, tf, v, hinp, rfl, hsf.symm, htf.symm, hty, hexp, hout', hwk⟩

theorem AgreesOutside.refl (P : String → Prop) (t : Struct) : t.AgreesOutside P t :=
  ⟨rfl, fun _ _ h _ => h, fun _ _ h _ => h⟩

theorem AgreesOutside.mono {P Q : String → Prop} {t t' : Struct} (hPQ : ∀ n, P n → Q n)
    (h : t.AgreesOutside P t') : t.AgreesOutside Q t' :=
  ⟨h.1, fun i fld hi hn => h.2.1 i fld hi (fun hp => hn (hPQ _ hp)),
    fun i p hi hn => h.2.2 i p hi (fun hp => hn (hPQ _ hp))⟩

theorem AgreesOutside.trans {P : String → Prop} {t t' t'' : Struct}
    (h : t.AgreesOutside P t') (h' : t'.AgreesOutside P t'') : t.AgreesOutside P t'' :=
  ⟨h'.1.trans h.1, fun i fld hi hn => h'.2.1 i fld (h.2.1 i fld hi hn) hn,
    fun i p hi hn => h'.2.2 i p (h.2.2 i p hi hn) hn⟩

theorem AgreesOutside.set (P : String → Prop) (t : Struct) (g : String) (v : Value)
    (hg : P g) : t.AgreesOutside P (t.set g v) :=
  ⟨Struct.set_shape t g v,
    fun i fld hi hn => Struct.set_fields_get? t g v i fld hi (fun h => hn (h ▸ hg)),
    fun i p hi hn => Struct.set_promoted_get? t g v i p hi (fun h => hn (h ▸ hg))⟩

theorem shape_typeName {t u : Struct} (h : u.shape = t.shape) : u.typeName = t.typeName :=
  congrArg (fun x => x.1) h

theorem shape_fields_length {t u : Struct} (h : u.shape = t.shape) :
    u.fields.length = t.fields.length := by
  have := congrArg (fun x => x.2.1.length) h
  simpa [Struct.shape] using this

theorem shape_promoted_length {t u : Struct} (h : u.shape = t.shape) :
    u.promoted.length = t.promoted.length := by
  have := congrArg (fun x => x.2.2.length) h
  simpa [Struct.shape] using this

theorem assign_ne_ok (out : Iface) (g : String) (tf : Field) (v : Value) :
    assign out g tf v ≠ .inl .ok := by
  unfold assign
  split
  · split <;> simp
  · simp

theorem entry_ne_ok (inp out : Iface) (f g : String) :
    mapValues.entry inp out f g ≠ .inl .ok := by
  intro h
  unfold mapValues.entry at h
  split at h
  · cases h
  split at h
  · cases h
  split at h
  · cases h
  · cases h
  split at h
  · cases h
  simp only at h
  split at h
  · exact assign_ne_ok _ _ _ _ h
  · split at h
    · cases h
    · exact assign_ne_ok _ _ _ _ h
  · split at h
    · cases h
    · exact assign_ne_ok _ _ _ _ h
  · split at h
    · cases h
    · exact assign_ne_ok _ _ _ _ h
  · split at h
    · cases h
    · exact assign_ne_ok _ _ _ _ h
  · split at h
    · rename_i o ho
      cases h
      exact assign_ne_ok _ _ _ _ ho
    · split at h <;> cases h
  · cases h

theorem loop_cons_ok (inp out out1 : Iface) (f g : String) (rest : List (String × String))
    (h : mapValues.loop inp ((f, g) :: rest) out = (.ok, out1)) :
    ∃ out', mapValues.entry inp out f g = .inr out' ∧
      mapValues.loop inp rest out' = (.ok, out1) := by
  unfold mapValues.loop at h
  split at h
  · rename_i o ho
    simp only [Prod.mk.injEq] at h
    rw [h.1] at ho
    exact absurd ho (entry_ne_ok _ _ _ _)
  · rename_i out' ho
    exact ⟨out', ho, h⟩

theorem loop_append (inp : Iface) (pre rest : List (String × String)) (out out1 : Iface)
    (h : mapValues.loop inp pre out = (.ok, out1)) :
    mapValues.loop inp (pre ++ rest) out = mapValues.loop inp rest out1 := by
  induction pre generalizing out with
  | nil =>
    simp only [mapValues.loop, Prod.mk.injEq, true_and] at h
    subst h
    rfl
  | cons e pre ih =>
    obtain ⟨f, g⟩ := e
    obtain ⟨out', he, hl⟩ := loop_cons_ok _ _ _ _ _ _ h
    simp only [List.cons_append, mapValues.loop, he]
    exact ih out' hl

theorem loop_agrees (inp : Iface) (order : List (String × String)) (t : Struct) :
    ∃ t', (mapValues.loop inp order (.ptrStruct t)).2 = .ptrStruct t' ∧
      t.AgreesOutside (fun n => ∃ e ∈ order, e.2 = n) t' := by
  induction order generalizing t with
  | nil => exact ⟨t, rfl, AgreesOutside.refl _ t⟩
  | cons e rest ih =>
    obtain ⟨f, g⟩ := e
    unfold mapValues.loop
    split
    · exact ⟨t, rfl, AgreesOutside.refl _ t⟩
    · rename_i out' he
      obtain ⟨src, t0, sf, tf, v, -, ht0, -, -, -, -, hout', -⟩ := entry_inr _ _ _ _ _ he
      simp only [Iface.ptrStruct.injEq] at ht0
      subst ht0
      subst hout'
      obtain ⟨t', ht', hag⟩ := ih (t.set g v)
      have h1 : t.AgreesOutside (fun n => ∃ e ∈ (f, g) :: rest, e.2 = n) (t.set g v) :=
        AgreesOutside.set _ t g v ⟨(f, g), List.mem_cons_self _ _, rfl⟩
      have h2 : (t.set g v).AgreesOutside (fun n => ∃ e ∈ (f, g) :: rest, e.2 = n) t' :=
        AgreesOutside.mono (fun n ⟨e, he, hn⟩ => ⟨e, List.mem_cons_of_mem _ he, hn⟩) hag
      exact ⟨t', ht', AgreesOutside.trans h1 h2⟩

theorem loop_other (inp : Iface) (order : List (String × String)) (out : Iface)
    (hout : ∀ t, out ≠ .ptrStruct t) : (mapValues.loop inp order out).2 = out := by
  cases order with
  | nil => rfl
  | cons e rest =>
    obtain ⟨f, g⟩ := e
    unfold mapValues.loop
    split
    · rfl
    · rename_i out' he
      obtain ⟨src, t0, sf, tf, v, -, ht0, -⟩ := entry_inr _ _ _ _ _ he
      exact absurd ht0 (hout t0)

theorem mapValues_snd (inp out : Iface) (m : List (String × String)) :
    (mapValues inp out m).2 = (mapValues.loop inp m out).2 := by
  unfold mapValues
  split
  · rename_i out' h
    rw [h]
    split <;> rfl
  · rfl

theorem Map_snd (ρ : FieldMap → List (String × String)) (inp out : Iface) :
    (Map ρ inp out).2 = out ∨
    ∃ outType fields fieldMap, TypeOf out = some outType ∧
      getFields (TypeOf inp) = .ok fields ∧
      getFieldMap fields outType = .ok fieldMap ∧
      (Map ρ inp out).2 = (mapValues.loop inp (ρ fieldMap) out).2 := by
  unfold Map
  split
  · exact .inl rfl
  rename_i outType hot
  split
  · exact .inl rfl
  simp only
  split
  · exact .inl rfl
  rename_i fields hf
  split
  · exact .inl rfl
  rename_i fieldMap hfm
  refine .inr ⟨outType, fields, fieldMap, hot, hf, hfm, ?_⟩
  rw [← mapValues_snd]
  split
  · rename_i p out' h
    rw [h]
  · rename_i o out' _ h
    rw [h]

theorem FieldMap.mem_set (m : FieldMap) (k v : String) (e : String × String)
    (h : e ∈ m.set k v) : e = (k, v) ∨ e ∈ m := by
  induction m with
  | nil => simpa [FieldMap.set] using h
  | cons a m ih =>
    obtain ⟨k', v'⟩ := a
    unfold FieldMap.set at h
    split at h
    · rcases List.mem_cons.1 h with h | h
      · exact .inl h
      · exact .inr (List.mem_cons_of_mem _ h)
    · rcases List.mem_cons.1 h with h | h
      · exact .inr (h ▸ List.mem_cons_self _ _)
      · rcases ih h with h | h
        · exact .inl h
        · exact .inr (List.mem_cons_of_mem _ h)

theorem parseEntry_eq_some (e a b : String) :
    parseEntry e = some (a, b) ↔ Split e ':' = [a, b] := by
  unfold parseEntry
  split
  · rename_i a' b' h
    rw [h]
    simp
  · rename_i h
    constructor
    · intro h'; cases h'
    · intro h'; exact absurd h' (h a b)

theorem parseEntry_isSome (e : String) :
    (parseEntry e).isSome = true ↔ (Split e ':').length = 2 := by
  unfold parseEntry
  split
  · rename_i a b h
    simp [h]
  · rename_i h
    constructor
    · intro h'; cases h'
    · intro h'
      match hs : Split e ':', h' with
      | [a, b], _ => exact absurd hs (h a b)

theorem maps_mem (tag name T : String) (es : List String) (out out' : FieldMap)
    (h : getFieldMap.maps tag name T es out = .ok out') (e : String × String)
    (he : e ∈ out') : e ∈ out ∨ (e.1 = name ∧ ∃ m ∈ es, parseEntry m = some (T, e.2)) := by
  induction es generalizing out with
  | nil =>
    simp only [getFieldMap.maps, Except.ok.injEq] at h
    exact .inl (h ▸ he)
  | cons m ms ih =>
    unfold getFieldMap.maps at h
    split at h
    · rename_i p0 p1 hsp
      split at h
      · rcases ih out h with h' | ⟨h1, m', hm', h2⟩
        · exact .inl h'
        · exact .inr ⟨h1, m', List.mem_cons_of_mem _ hm', h2⟩
      · rename_i hp
        simp only [ne_eq, not_not] at hp
        rcases ih _ h with h' | ⟨h1, m', hm', h2⟩
        · rcases FieldMap.mem_set _ _ _ _ h' with h'' | h''
          · refine .inr ⟨by rw [h''], m, List.mem_cons_self _ _, ?_⟩
            rw [parseEntry_eq_some, hsp, h'', hp]
          · exact .inl h''
        · exact .inr ⟨h1, m', List.mem_cons_of_mem _ hm', h2⟩
    · cases h

theorem maps_error (tag name T : String) (es : List String) (out : FieldMap) (err : MapError)
    (h : getFieldMap.maps tag name T es out = .error err) :
    err = .errInvalidMap tag ∧ ∃ m ∈ es, (Split m ':').length ≠ 2 := by
  induction es generalizing out with
  | nil => cases h
  | cons m ms ih =>
    unfold getFieldMap.maps at h
    split at h
    · split at h
      · obtain ⟨h1, m', hm', h2⟩ := ih _ h
        exact ⟨h1, m', List.mem_cons_of_mem _ hm', h2⟩
      · obtain ⟨h1, m', hm', h2⟩ := ih _ h
        exact ⟨h1, m', List.mem_cons_of_mem _ hm', h2⟩
    · rename_i hsp
      refine ⟨by cases h; rfl, m, List.mem_cons_self _ _, ?_⟩
      intro hlen
      match hs : Split m ':', hlen with
      | [a, b], _ => exact hsp a b hs

theorem maps_ok (tag name T : String) (es : List String) (out out' : FieldMap)
    (h : getFieldMap.maps tag name T es out = .ok out') :
    ∀ m ∈ es, (Split m ':').length = 2 := by
  induction es generalizing out with
  | nil => simp
  | cons m ms ih =>
    unfold getFieldMap.maps at h
    split at h
    · rename_i p0 p1 hsp
      intro m' hm'
      rcases List.mem_cons.1 hm' with rfl | hm'
      · rw [hsp]; rfl
      · split at h
        · exact ih _ h m' hm'
        · exact ih _ h m' hm'
    · cases h

theorem getFieldMap_loop_mem (outType : RType) (fs : List StructField) (out out' : FieldMap)
    (h : getFieldMap.loop outType fs out = .ok out') (e : String × String) (he : e ∈ out') :
    e ∈ out ∨ ∃ fld ∈ fs, fld.Name = e.1 ∧ (getTypeName outType, e.2) ∈ tagEntries fld.Tag := by
  induction fs generalizing out with
  | nil =>
    simp only [getFieldMap.loop, Except.ok.injEq] at h
    exact .inl (h ▸ he)
  | cons fld fs ih =>
    unfold getFieldMap.loop at h
    simp only at h
    split at h
    · rcases ih _ h with h' | ⟨fld', hf', h1, h2⟩
      · exact .inl h'
      · exact .inr ⟨fld', List.mem_cons_of_mem _ hf', h1, h2⟩
    · rename_i htag
      split at h
      · cases h
      · rename_i out1 hm
        rcases ih _ h with h' | ⟨fld', hf', h1, h2⟩
        · rcases maps_mem _ _ _ _ _ _ hm e h' with h'' | ⟨h1, m, hm', h2⟩
          · exact .inl h''
          · refine .inr ⟨fld, List.mem_cons_self _ _, h1.symm, ?_⟩
            unfold tagEntries
            rw [if_neg htag]
            exact List.mem_filterMap.2 ⟨m, hm', h2⟩
        · exact .inr ⟨fld', List.mem_cons_of_mem _ hf', h1, h2⟩

theorem getFieldMap_loop_error (outType : RType) (fs : List StructField) (out : FieldMap)
    (err : MapError) (h : getFieldMap.loop outType fs out = .error err) :
    ∃ fld ∈ fs, MalformedTag fld.Tag ∧ err = .errInvalidMap fld.Tag := by
  induction fs generalizing out with
  | nil => cases h
  | cons fld fs ih =>
    unfold getFieldMap.loop at h
    simp only at h
    split at h
    · obtain ⟨fld', hf', h1, h2⟩ := ih _ h
      exact ⟨fld', List.mem_cons_of_mem _ hf', h1, h2⟩
    · rename_i htag
      split at h
      · rename_i e he
        obtain ⟨h1, h2⟩ := maps_error _ _ _ _ _ _ he
        cases h
        exact ⟨fld, List.mem_cons_self _ _, ⟨htag, h2⟩, h1⟩
      · obtain ⟨fld', hf', h1, h2⟩ := ih _ h
        exact ⟨fld', List.mem_cons_of_mem _ hf', h1, h2⟩

theorem getFieldMap_loop_ok (outType : RType) (fs : List StructField) (out out' : FieldMap)
    (h : getFieldMap.loop outType fs out = .ok out') : ∀ fld ∈ fs, ¬ MalformedTag fld.Tag := by
  induction fs generalizing out with
  | nil => simp
  | cons fld fs ih =>
    unfold getFieldMap.loop at h
    simp only at h
    intro fld' hf'
    split at h
    · rename_i htag
      rcases List.mem_cons.1 hf' with rfl | hf'
      · exact fun hm => hm.1 htag
      · exact ih _ h fld' hf'
    · split at h
      · cases h
      · rename_i out1 hm
        rcases List.mem_cons.1 hf' with rfl | hf'
        · rintro ⟨-, e, he, hlen⟩
          exact hlen (maps_ok _ _ _ _ _ _ hm e he)
        · exact ih _ h fld' hf'

theorem getFields_ok (inp : Iface) (fields : List StructField)
    (h : getFields (TypeOf inp) = .ok fields) : fields = declaredFields inp := by
  unfold getFields at h
  unfold declaredFields
  split at h
  · cases h
  · rename_i t ht
    split at h
    · cases h
    · simp only [Except.ok.injEq] at h
      rw [← h, range_filterMap_get?]

/-- C1 (defect in the code): on the source `BField int` tagged `Target:B` and a target
whose `B` is a `string`, the table is built without error and `mapValues` returns the
error `cannot map int to string`, yet `Map` returns nil. -/
theorem Map_drops_the_copy_error :
    getFieldMap (declaredFields (.struct intSource)) ⟨.ptr stringTarget.typ, []⟩
      = .ok [("BField", "B")] ∧
    mapValues (.struct intSource) (.ptrStruct stringTarget) [("BField", "B")]
      = (.error (.errInvalidConversion "int" "string"), .ptrStruct stringTarget) ∧
    Map id (.struct intSource) (.ptrStruct stringTarget) = (.ok, .ptrStruct stringTarget) := by
  exact ⟨rfl, by decide, by decide⟩

/-- C4: for a target whose type is not a pointer, `Map` returns the error
`errNotPointer` carrying the printed form of the target's type, and the target is
returned as it was passed. -/
theorem Map_non_pointer_target (ρ : FieldMap → List (String × String)) (inp out : Iface)
    (t : RType) (ht : TypeOf out = some t) (hk : t.Kind ≠ Kind.ptr) :
    Map ρ inp out = (.error (.errNotPointer t.toString), out) := by
  simp [Map, ht, hk]

theorem Map_non_pointer_target_witness :
    TypeOf (.struct testTarget) = some ⟨testTarget.typ, declaredFields (.struct testTarget)⟩ ∧
    (⟨testTarget.typ, declaredFields (.struct testTarget)⟩ : RType).Kind ≠ Kind.ptr ∧
    Map id (.struct testSource) (.struct testTarget)
      = (.error (.errNotPointer "mapper_test.Target"), .struct testTarget) :=
  ⟨rfl, by decide,
    Map_non_pointer_target id (.struct testSource) (.struct testTarget)
      ⟨testTarget.typ, declaredFields (.struct testTarget)⟩ rfl (by decide)⟩

theorem mapValues_ok_loop (inp out out1 : Iface) (m : List (String × String))
    (h : mapValues inp out m = (.ok, out1)) : mapValues.loop inp m out = (.ok, out1) := by
  unfold mapValues at h
  split at h
  · rename_i out' hl
    split at h
    · cases h
    · rw [hl, h]
  · rename_i hne
    rw [h] at hne
    exact absurd rfl (hne out1)

theorem mapValues_of_loop_stop (inp out out1 : Iface) (m : List (String × String))
    (o : Outcome) (ho : o ≠ .ok) (h : mapValues.loop inp m out = (o, out1)) :
    mapValues inp out m = (o, out1) := by
  unfold mapValues
  split
  · rename_i out' hl
    rw [hl] at h
    simp only [Prod.mk.injEq] at h
    exact absurd h.1.symm ho
  · exact h

theorem loop_indirect (inp out : Iface) (order : List (String × String)) (t : Struct)
    (b : Bool) (hout : Indirect (ValueOf out) = .struct t b) :
    ∃ t1, Indirect (ValueOf (mapValues.loop inp order out).2) = .struct t1 b ∧
      t.AgreesOutside (fun n => ∃ e ∈ order, e.2 = n) t1 := by
  cases out with
  | ptrStruct s =>
    simp only [ValueOf, Indirect, RValue.struct.injEq] at hout
    obtain ⟨rfl, rfl⟩ := hout
    obtain ⟨t', ht', hag⟩ := loop_agrees inp order s
    exact ⟨t', by rw [ht']; rfl, hag⟩
  | struct s =>
    simp only [ValueOf, Indirect, RValue.struct.injEq] at hout
    obtain ⟨rfl, rfl⟩ := hout
    refine ⟨s, ?_, AgreesOutside.refl _ s⟩
    rw [loop_other inp order (.struct s) (fun t h => by cases h)]
    rfl
  | nil => simp [ValueOf, Indirect] at hout
  | val _ _ => simp [ValueOf, Indirect] at hout
  | ptrVal _ _ => simp [ValueOf, Indirect] at hout
  | nilPtr _ => simp [ValueOf, Indirect] at hout

/-- C3, what the code does instead: the target is `struct { Inner; B string }` with
`Inner` a `struct { A string; C string }`, and the only tagged source field is tagged
`Target:A`.  No entry names the target field `Inner`, yet `Map` writes the field `A`
promoted from it, so the embedded field `Inner` does not hold the value it held before
the call. -/
theorem embedded_field_counterexample :
    ¬ NamedAsTarget (getTypeName ⟨.ptr embeddingTarget.typ, []⟩)
        (declaredFields (.struct promotingSource)) "Inner" ∧
    embeddingTarget.promoted
      = [("Inner", mkField "A" (.basic .string) "" (.str "a0")),
         ("Inner", mkField "C" (.basic .string) "" (.str "c0"))] ∧
    ∃ tgt', Map id (.struct promotingSource) (.ptrStruct embeddingTarget)
        = (.ok, .ptrStruct tgt') ∧
      tgt'.promoted
        = [("Inner", mkField "A" (.basic .string) "" (.str "x")),
           ("Inner", mkField "C" (.basic .string) "" (.str "c0"))] := by
  refine ⟨by unfold NamedAsTarget; decide, rfl, _, rfl, rfl⟩

/-- C3 as amended: `Map` leaves every field of the target struct in place, declared or
promoted from an embedded struct.  A promoted field whose name is not the
target-field-name of an entry for the target's type name in the annotation of a source
field holds after the call, however it ends, the value it held before; and so does such
a declared field, unless it is an embedded struct with promoted fields (whose value is
the values of those fields). -/
theorem Map_leaves_unnamed_fields (ρ : FieldMap → List (String × String))
    (hρ : ∀ m, (ρ m).Perm m) (inp : Iface) (tgt : Struct) :
    ∃ tgt', (Map ρ inp (.ptrStruct tgt)).2 = .ptrStruct tgt' ∧
      tgt'.fields.length = tgt.fields.length ∧
      tgt'.promoted.length = tgt.promoted.length ∧
      (∀ i fld, tgt.fields.get? i = some fld →
        ¬ NamedAsTarget (getTypeName ⟨.ptr tgt.typ, []⟩) (declaredFields inp) fld.Name →
        (∀ p ∈ tgt.promoted, p.1 ≠ fld.Name) →
        tgt'.fields.get? i = some fld) ∧
      (∀ i p, tgt.promoted.get? i = some p →
        ¬ NamedAsTarget (getTypeName ⟨.ptr tgt.typ, []⟩) (declaredFields inp) p.2.Name →
        tgt'.promoted.get? i = some p) := by
  rcases Map_snd ρ inp (.ptrStruct tgt) with h | ⟨outType, fields, fieldMap, hot, hf, hfm, h⟩
  · exact ⟨tgt, h, rfl, rfl, fun _ _ hi _ _ => hi, fun _ _ hi _ => hi⟩
  · obtain ⟨t', ht', hag⟩ := loop_agrees inp (ρ fieldMap) tgt
    have hnamed : ∀ n, (∃ e ∈ ρ fieldMap, e.2 = n) →
        NamedAsTarget (getTypeName ⟨.ptr tgt.typ, []⟩) (declaredFields inp) n := by
      rintro n ⟨e, he, hname⟩
      have hmem : e ∈ fieldMap := (hρ fieldMap).subset he
      have hfields := getFields_ok inp fields hf
      simp only [TypeOf, Option.some.injEq] at hot
      subst hot
      rcases getFieldMap_loop_mem _ _ _ _ hfm e hmem with h' | ⟨d, hd, -, hd2⟩
      · cases h'
      · exact ⟨d, hfields ▸ hd, hname ▸ hd2⟩
    exact ⟨t', h.trans ht', shape_fields_length hag.1, shape_promoted_length hag.1,
      fun i fld hi hn _ => hag.2.1 i fld hi (fun hp => hn (hnamed _ hp)),
      fun i p hi hn => hag.2.2 i p hi (fun hp => hn (hnamed _ hp))⟩

theorem Map_leaves_unnamed_fields_witness :
    (∀ m : FieldMap, (id m).Perm m) ∧
    Map id (.struct promotingSource) (.ptrStruct embeddingTarget)
      = (.ok, .ptrStruct (embeddingTarget.set "A" (.str "x"))) ∧
    ∃ tgt', (Map id (.struct promotingSource) (.ptrStruct embeddingTarget)).2
        = .ptrStruct tgt' ∧
      tgt'.fields.length = embeddingTarget.fields.length ∧
      tgt'.promoted.length = embeddingTarget.promoted.length ∧
      (∀ i fld, embeddingTarget.fields.get? i = some fld →
        ¬ NamedAsTarget (getTypeName ⟨.ptr embeddingTarget.typ, []⟩)
            (declaredFields (.struct promotingSource)) fld.Name →
        (∀ p ∈ embeddingTarget.promoted, p.1 ≠ fld.Name) →
        tgt'.fields.get? i = some fld) ∧
      (∀ i p, embeddingTarget.promoted.get? i = some p →
        ¬ NamedAsTarget (getTypeName ⟨.ptr embeddingTarget.typ, []⟩)
            (declaredFields (.struct promotingSource)) p.2.Name →
        tgt'.promoted.get? i = some p) :=
  ⟨fun m => List.Perm.refl m, rfl,
    Map_leaves_unnamed_fields id (fun m => List.Perm.refl m)
      (.struct promotingSource) embeddingTarget⟩

/-- C5: for a source struct and a pointer target, if the non-empty annotation of some
source field has an entry that does not split on `:` into exactly two parts, `Map`
returns `errInvalidMap` and the target is as it was. -/
theorem Map_malformed_annotation (ρ : FieldMap → List (String × String)) (src : Struct)
    (out : Iface) (outType : RType) (hot : TypeOf out = some outType)
    (hptr : outType.Kind = Kind.ptr) (hbad : ∃ fld ∈ src.fields, MalformedTag fld.Tag) :
    ∃ fld ∈ src.fields, MalformedTag fld.Tag ∧
      Map ρ (.struct src) out = (.error (.errInvalidMap fld.Tag), out) := by
  obtain ⟨bad, hbadmem, hbadtag⟩ := hbad
  have hres : ∃ err, getFieldMap (src.fields.map (·.toStructField)) outType = .error err := by
    cases hr : getFieldMap (src.fields.map (·.toStructField)) outType with
    | error err => exact ⟨err, rfl⟩
    | ok m =>
      exact absurd hbadtag
        (getFieldMap_loop_ok _ _ _ _ hr bad.toStructField (List.mem_map_of_mem _ hbadmem))
  obtain ⟨err, herr⟩ := hres
  obtain ⟨d, hd, hmal, hpay⟩ := getFieldMap_loop_error _ _ _ _ herr
  obtain ⟨fld, hfld, rfl⟩ := List.mem_map.1 hd
  refine ⟨fld, hfld, hmal, ?_⟩
  unfold Map
  simp only [hot, hptr, ne_eq, not_true_eq_false, if_false, getFields_struct, herr, hpay]

theorem Map_malformed_annotation_witness :
    TypeOf (.ptrStruct testTarget) = some ⟨.ptr testTarget.typ, []⟩ ∧
    (⟨.ptr testTarget.typ, []⟩ : RType).Kind = Kind.ptr ∧
    (∃ fld ∈ malformedSource.fields, MalformedTag fld.Tag) ∧
    ∃ fld ∈ malformedSource.fields, MalformedTag fld.Tag ∧
      Map id (.struct malformedSource) (.ptrStruct testTarget)
        = (.error (.errInvalidMap fld.Tag), .ptrStruct testTarget) :=
  ⟨rfl, rfl, by decide,
    Map_malformed_annotation id malformedSource (.ptrStruct testTarget)
      ⟨.ptr testTarget.typ, []⟩ rfl rfl (by decide)⟩

theorem loop_stop (inp out : Iface) (f g : String) (rest : List (String × String))
    (o : Outcome) (h : mapValues.entry inp out f g = .inl o) :
    mapValues.loop inp ((f, g) :: rest) out = (o, out) := by
  simp only [mapValues.loop, h]

/-- The state `out1` reached by copying the entries `pre` without error is a struct with
the shape of the struct it started from, and copying then goes on with the
entries that follow. -/
theorem mapValues_reach (inp out out1 : Iface) (t : Struct) (b : Bool)
    (pre rest : List (String × String)) (hout : Indirect (ValueOf out) = .struct t b)
    (hpre : mapValues inp out pre = (.ok, out1)) :
    (∃ t1, Indirect (ValueOf out1) = .struct t1 b ∧ t1.shape = t.shape) ∧
    mapValues.loop inp (pre ++ rest) out = mapValues.loop inp rest out1 := by
  have hl := mapValues_ok_loop _ _ _ _ hpre
  obtain ⟨t1, ht1, hag⟩ := loop_indirect inp out pre t b hout
  rw [hl] at ht1
  exact ⟨⟨t1, ht1, hag.1⟩, loop_append _ _ _ _ _ hl⟩

/-- C6, what the code does instead: on the annotation `Target:A;Target-B`, whose second
entry `Target-B` is the malformed one, the error carries the whole annotation and not
the entry. -/
theorem errInvalidMap_payload_counterexample :
    Split "Target:A;Target-B" ';' = ["Target:A", "Target-B"] ∧
    (Split "Target:A" ':').length = 2 ∧ (Split "Target-B" ':').length ≠ 2 ∧
    getFieldMap (declaredFields (.struct malformedSource)) ⟨.ptr testTarget.typ, []⟩
      = .error (.errInvalidMap "Target:A;Target-B") ∧
    getFieldMap (declaredFields (.struct malformedSource)) ⟨.ptr testTarget.typ, []⟩
      ≠ .error (.errInvalidMap "Target-B") := by
  refine ⟨by decide, by decide, by decide, rfl, ?_⟩
  intro h
  have h' : getFieldMap (declaredFields (.struct malformedSource)) ⟨.ptr testTarget.typ, []⟩
      = .error (.errInvalidMap "Target:A;Target-B") := rfl
  rw [h'] at h
  simp only [Except.error.injEq, MapError.errInvalidMap.injEq] at h
  exact absurd h (by decide)

/-- C6 as amended: an error returned by `getFieldMap` is `errInvalidMap` carrying the
whole annotation of a source field whose annotation has a malformed entry. -/
theorem getFieldMap_error_payload (fs : List StructField) (outType : RType) (err : MapError)
    (h : getFieldMap fs outType = .error err) :
    ∃ fld ∈ fs, MalformedTag fld.Tag ∧ err = .errInvalidMap fld.Tag :=
  getFieldMap_loop_error outType fs [] err h

theorem getFieldMap_error_payload_witness :
    getFieldMap (declaredFields (.struct malformedSource)) ⟨.ptr testTarget.typ, []⟩
      = .error (.errInvalidMap "Target:A;Target-B") ∧
    ∃ fld ∈ declaredFields (.struct malformedSource), MalformedTag fld.Tag ∧
      MapError.errInvalidMap "Target:A;Target-B" = .errInvalidMap fld.Tag :=
  ⟨rfl, getFieldMap_error_payload (declaredFields (.struct malformedSource))
    ⟨.ptr testTarget.typ, []⟩ (.errInvalidMap "Target:A;Target-B") rfl⟩

/-- C7, what the code does instead: for the entry `AField → Missing`, built from the
tag `Target:Missing`, and a target without a field `Missing`, `mapValues` panics (the
zero Value returned by `FieldByName` is asked for its type); no error is returned. -/
theorem missing_target_field_counterexample :
    getFieldMap (declaredFields (.struct missingSource)) ⟨.ptr testTarget.typ, []⟩
      = .ok [("AField", "Missing")] ∧
    testTarget.FieldByName "Missing" = none ∧
    mapValues (.struct missingSource) (.ptrStruct testTarget) [("AField", "Missing")]
      = (.panic .typeOfZeroValue, .ptrStruct testTarget) ∧
    Map id (.struct missingSource) (.ptrStruct testTarget)
      = (.panic .typeOfZeroValue, .ptrStruct testTarget) :=
  ⟨rfl, by decide, by decide, by decide⟩

/-- C7 as amended: when the entries before `(f, g)` have been copied without error and
the target struct declares no field `g`, `mapValues` panics at that entry, with the
target in the state those entries left it in. -/
theorem mapValues_missing_target_field (src t : Struct) (out out1 : Iface) (b : Bool)
    (pre post : List (String × String)) (f g : String)
    (hout : Indirect (ValueOf out) = .struct t b)
    (hpre : mapValues (.struct src) out pre = (.ok, out1))
    (hmiss : t.FieldByName g = none) :
    mapValues (.struct src) out (pre ++ (f, g) :: post)
      = (.panic .typeOfZeroValue, out1) := by
  obtain ⟨⟨t1, ht1, hdesc⟩, happ⟩ := mapValues_reach _ _ _ _ _ pre ((f, g) :: post) hout hpre
  have hmiss1 : t1.FieldByName g = none := by
    have := FieldByName_shape t t1 g hdesc
    rw [hmiss] at this
    simpa using this
  apply mapValues_of_loop_stop _ _ _ _ _ (by simp)
  rw [happ]
  apply loop_stop
  unfold mapValues.entry
  rw [ht1]
  simp only [ValueOf, RValue.FieldByName, hmiss1]
  cases src.FieldByName f <;> rfl

theorem mapValues_missing_target_field_witness :
    Indirect (ValueOf (.ptrStruct mixedTarget)) = .struct mixedTarget true ∧
    mapValues (.struct mixedSource) (.ptrStruct mixedTarget) [("AField", "A")]
      = (.ok, .ptrStruct mixedTargetA) ∧
    mixedTarget.FieldByName "Missing" = none ∧
    mapValues (.struct mixedSource) (.ptrStruct mixedTarget)
        ([("AField", "A")] ++ ("NField", "Missing") :: [("FField", "F")])
      = (.panic .typeOfZeroValue, .ptrStruct mixedTargetA) :=
  ⟨rfl, by decide, by decide,
    mapValues_missing_target_field mixedSource mixedTarget (.ptrStruct mixedTarget)
      (.ptrStruct mixedTargetA) true [("AField", "A")] [("FField", "F")] "NField" "Missing"
      rfl (by decide) (by decide)⟩

/-- The field found under a name keeps its descriptor while entries are copied. -/
theorem FieldByName_some_of_desc (t t1 : Struct) (g : String) (tf : Field)
    (hdesc : t1.shape = t.shape) (htf : t.FieldByName g = some tf) :
    ∃ tf1, t1.FieldByName g = some tf1 ∧ tf1.toStructField = tf.toStructField := by
  have := FieldByName_shape t t1 g hdesc
  rw [htf] at this
  cases h1 : t1.FieldByName g with
  | none => rw [h1] at this; cases this
  | some tf1 =>
    rw [h1] at this
    exact ⟨tf1, rfl, by simpa using this⟩

/-- C9: when the entries before `(f, g)` have been copied without error, and the source
field `f` and the target field `g` exist with different declared types, `mapValues`
returns `errInvalidConversion` with the printed source type and target type, and the
target is in the state the earlier entries left it in: field `g` is not written. -/
theorem mapValues_type_mismatch (src t : Struct) (out out1 : Iface) (b : Bool)
    (pre post : List (String × String)) (f g : String) (sf tf : Field)
    (hout : Indirect (ValueOf out) = .struct t b)
    (hpre : mapValues (.struct src) out pre = (.ok, out1))
    (hsf : src.FieldByName f = some sf) (htf : t.FieldByName g = some tf)
    (hne : sf.Typ ≠ tf.Typ) :
    mapValues (.struct src) out (pre ++ (f, g) :: post)
      = (.error (.errInvalidConversion sf.Typ.toString tf.Typ.toString), out1) := by
  obtain ⟨⟨t1, ht1, hdesc⟩, happ⟩ := mapValues_reach _ _ _ _ _ pre ((f, g) :: post) hout hpre
  obtain ⟨tf1, htf1, hd1⟩ := FieldByName_some_of_desc t t1 g tf hdesc htf
  have hty1 : tf1.Typ = tf.Typ := congrArg StructField.Typ hd1
  apply mapValues_of_loop_stop _ _ _ _ _ (by simp)
  rw [happ]
  apply loop_stop
  unfold mapValues.entry
  rw [ht1]
  simp only [ValueOf, RValue.FieldByName, hsf, htf1, hty1, ne_eq, hne, not_false_eq_true,
    if_true]

theorem mapValues_type_mismatch_witness :
    Indirect (ValueOf (.ptrStruct mixedTarget)) = .struct mixedTarget true ∧
    mapValues (.struct mixedSource) (.ptrStruct mixedTarget) [("AField", "A")]
      = (.ok, .ptrStruct mixedTargetA) ∧
    mapValues (.struct mixedSource) (.ptrStruct mixedTarget)
        ([("AField", "A")] ++ ("FField", "F") :: [("NField", "N")])
      = (.error (.errInvalidConversion "map[string]string" "map[string]int"),
          .ptrStruct mixedTargetA) :=
  ⟨rfl, by decide,
    mapValues_type_mismatch mixedSource mixedTarget (.ptrStruct mixedTarget)
      (.ptrStruct mixedTargetA) true [("AField", "A")] [("NField", "N")] "FField" "F"
      (mkField "FField" (.map (.basic .string) (.basic .string)) "Target:F" (.mapRef (some 1)))
      (mkField "F" (.map (.basic .string) (.basic .int)) "" (.mapRef none))
      rfl (by decide) (by decide) (by decide) (by decide)⟩

/-- C10: when the entries before `(f, g)` have been copied without error and the source
field `f` and the target field `g` exist with the same declared type: if the kind of
that type is none of string, int, bool, float32, float64, map, then `mapValues` returns
`errInvalidType` with the name of the kind and the target is in the state the earlier
entries left it in; if it is one of the six, copying the entry does not end in
`errInvalidType`. -/
theorem mapValues_unsupported_kind (src t : Struct) (out out1 : Iface) (b : Bool)
    (pre post : List (String × String)) (f g : String) (sf tf : Field)
    (hout : Indirect (ValueOf out) = .struct t b)
    (hpre : mapValues (.struct src) out pre = (.ok, out1))
    (hsf : src.FieldByName f = some sf) (htf : t.FieldByName g = some tf)
    (hty : sf.Typ = tf.Typ) :
    (sf.Typ.Kind ∉ supportedKinds →
      mapValues (.struct src) out (pre ++ (f, g) :: post)
        = (.error (.errInvalidType sf.Typ.Kind.name), out1)) ∧
    (sf.Typ.Kind ∈ supportedKinds →
      ∀ k, mapValues.entry (.struct src) out1 f g ≠ .inl (.error (.errInvalidType k))) := by
  obtain ⟨⟨t1, ht1, hdesc⟩, happ⟩ := mapValues_reach _ _ _ _ _ pre ((f, g) :: post) hout hpre
  obtain ⟨tf1, htf1, hd1⟩ := FieldByName_some_of_desc t t1 g tf hdesc htf
  have hty1 : sf.Typ = tf1.Typ := hty.trans (congrArg StructField.Typ hd1).symm
  constructor
  · intro hk
    apply mapValues_of_loop_stop _ _ _ _ _ (by simp)
    rw [happ]
    apply loop_stop
    unfold mapValues.entry
    rw [ht1]
    simp only [ValueOf, RValue.FieldByName, hsf, htf1, hty1, ne_eq, not_true_eq_false,
      if_false]
    rw [← hty1]
    cases hkind : sf.Typ.Kind <;> simp_all [supportedKinds]
  · intro hk k h
    unfold mapValues.entry at h
    rw [ht1] at h
    simp only [ValueOf, RValue.FieldByName, hsf, htf1, hty1, ne_eq, not_true_eq_false,
      if_false] at h
    rw [← hty1] at h
    have hassign : ∀ v, assign out1 g tf1 v ≠ .inl (.error (.errInvalidType k)) := by
      intro v ha
      unfold assign at ha
      split at ha
      · split at ha <;> cases ha
      · cases ha
    split at h
    · exact hassign _ h
    · split at h
      · cases h
      · exact hassign _ h
    · split at h
      · cases h
      · exact hassign _ h
    · split at h
      · cases h
      · exact hassign _ h
    · split at h
      · cases h
      · exact hassign _ h
    · split at h
      · rename_i o ho
        cases h
        exact hassign _ ho
      · split at h <;> cases h
    · rename_i h1 h2 h3 h4 h5 h6
      simp only [supportedKinds, List.mem_cons, List.mem_singleton, List.not_mem_nil,
        or_false] at hk
      rcases hk with hk | hk | hk | hk | hk | hk
      · exact h1 hk
      · exact h2 hk
      · exact h3 hk
      · exact h4 hk
      · exact h5 hk
      · exact h6 hk

theorem mapValues_unsupported_kind_witness :
    Indirect (ValueOf (.ptrStruct mixedTarget)) = .struct mixedTarget true ∧
    mapValues (.struct mixedSource) (.ptrStruct mixedTarget) [("AField", "A")]
      = (.ok, .ptrStruct mixedTargetA) ∧
    mapValues (.struct mixedSource) (.ptrStruct mixedTarget)
        ([("AField", "A")] ++ ("NField", "N") :: [("FField", "F")])
      = (.error (.errInvalidType "int64"), .ptrStruct mixedTargetA) :=
  ⟨rfl, by decide,
    (mapValues_unsupported_kind mixedSource mixedTarget (.ptrStruct mixedTarget)
      (.ptrStruct mixedTargetA) true [("AField", "A")] [("FField", "F")] "NField" "N"
      (mkField "NField" (.basic .int64) "Target:N" (.other 5))
      (mkField "N" (.basic .int64) "" (.other 0))
      rfl (by decide) (by decide) (by decide) rfl).1 (by decide)⟩

theorem FieldMap.lookup_set (m : FieldMap) (k v k' : String) :
    (m.set k v).lookup k' = if k = k' then some v else m.lookup k' := by
  induction m with
  | nil => simp [FieldMap.set, FieldMap.lookup]
  | cons a m ih =>
    obtain ⟨a1, a2⟩ := a
    unfold FieldMap.set
    split
    · rename_i h
      subst h
      simp only [FieldMap.lookup]
      split <;> rfl
    · rename_i h
      simp only [FieldMap.lookup, ih]
      by_cases h1 : a1 = k'
      · have : ¬ k = k' := fun hk => h (h1.trans hk.symm)
        simp [h1, this]
      · simp [h1]

theorem FieldMap.keys_set (m : FieldMap) (k v : String)
    (h : (m.map Prod.fst).Nodup) : ((m.set k v).map Prod.fst).Nodup := by
  have key : ∀ m : FieldMap, ∀ x, x ∈ (m.set k v).map Prod.fst → x = k ∨ x ∈ m.map Prod.fst := by
    intro m x hx
    obtain ⟨e, he, rfl⟩ := List.mem_map.1 hx
    rcases FieldMap.mem_set m k v e he with h' | h'
    · exact .inl (by rw [h'])
    · exact .inr (List.mem_map_of_mem _ h')
  induction m with
  | nil => simp [FieldMap.set]
  | cons a m ih =>
    obtain ⟨a1, a2⟩ := a
    simp only [List.map_cons, List.nodup_cons] at h
    unfold FieldMap.set
    split
    · rename_i hk
      subst hk
      simpa using h
    · rename_i hk
      simp only [List.map_cons, List.nodup_cons]
      refine ⟨fun hmem => ?_, ih h.2⟩
      rcases key m a1 hmem with h' | h'
      · exact hk h'
      · exact h.1 h'

theorem FieldMap.mem_iff_lookup (m : FieldMap) (h : (m.map Prod.fst).Nodup) (k v : String) :
    (k, v) ∈ m ↔ m.lookup k = some v := by
  induction m with
  | nil => simp [FieldMap.lookup]
  | cons a m ih =>
    obtain ⟨a1, a2⟩ := a
    simp only [List.map_cons, List.nodup_cons] at h
    simp only [FieldMap.lookup, List.mem_cons, Prod.mk.injEq]
    by_cases h1 : a1 = k
    · subst h1
      simp only [if_true, Option.some.injEq, true_and]
      constructor
      · rintro (h' | h')
        · exact h'.symm
        · exact absurd (List.mem_map_of_mem Prod.fst h') h.1
      · intro h'
        exact .inl h'.symm
    · simp only [h1, if_false]
      rw [← ih h.2]
      constructor
      · rintro (h' | h')
        · exact absurd h'.1.symm h1
        · exact h'
      · exact fun h' => .inr h'

theorem lastEntryFor_append (T : String) (a b : List (String × String)) :
    lastEntryFor T (a ++ b) = (lastEntryFor T b).or (lastEntryFor T a) := by
  unfold lastEntryFor
  rw [List.filter_append, List.getLast?_append]
  cases (List.filter (fun e => decide (e.1 = T)) b).getLast? <;> simp

theorem lastEntryFor_cons (T : String) (e : String × String) (es : List (String × String)) :
    lastEntryFor T (e :: es) =
      (lastEntryFor T es).or (if e.1 = T then some e.2 else none) := by
  have h := lastEntryFor_append T [e] es
  rw [List.singleton_append] at h
  rw [h]
  congr 1
  unfold lastEntryFor
  by_cases he : e.1 = T <;> simp [List.filter_cons, he]

theorem maps_lookup (tag name T : String) (es : List String) (out out' : FieldMap)
    (h : getFieldMap.maps tag name T es out = .ok out') (k : String) :
    out'.lookup k =
      if name = k then (lastEntryFor T (es.filterMap parseEntry)).or (out.lookup k)
      else out.lookup k := by
  induction es generalizing out with
  | nil =>
    simp only [getFieldMap.maps, Except.ok.injEq] at h
    subst h
    simp [lastEntryFor]
  | cons m ms ih =>
    unfold getFieldMap.maps at h
    split at h
    · rename_i p0 p1 hsp
      have hp : parseEntry m = some (p0, p1) := (parseEntry_eq_some m p0 p1).2 hsp
      simp only [List.filterMap_cons, hp]
      rw [lastEntryFor_cons]
      split at h
      · rename_i hne
        rw [ih _ h]
        simp [hne]
      · rename_i heq
        simp only [ne_eq, not_not] at heq
        rw [ih _ h, FieldMap.lookup_set]
        by_cases hk : name = k
        · simp only [hk, if_true, heq]
          cases lastEntryFor T (List.filterMap parseEntry ms) <;> simp
        · simp [hk]
    · cases h

theorem maps_keys (tag name T : String) (es : List String) (out out' : FieldMap)
    (h : getFieldMap.maps tag name T es out = .ok out') (hnd : (out.map Prod.fst).Nodup) :
    (out'.map Prod.fst).Nodup := by
  induction es generalizing out with
  | nil =>
    simp only [getFieldMap.maps, Except.ok.injEq] at h
    exact h ▸ hnd
  | cons m ms ih =>
    unfold getFieldMap.maps at h
    split at h
    · split at h
      · exact ih _ h hnd
      · exact ih _ h (FieldMap.keys_set _ _ _ hnd)
    · cases h

theorem getFieldMap_loop_keys (outType : RType) (fs : List StructField) (out out' : FieldMap)
    (h : getFieldMap.loop outType fs out = .ok out') (hnd : (out.map Prod.fst).Nodup) :
    (out'.map Prod.fst).Nodup := by
  induction fs generalizing out with
  | nil =>
    simp only [getFieldMap.loop, Except.ok.injEq] at h
    exact h ▸ hnd
  | cons fld fs ih =>
    unfold getFieldMap.loop at h
    simp only at h
    split at h
    · exact ih _ h hnd
    · split at h
      · cases h
      · rename_i out1 hm
        exact ih _ h (maps_keys _ _ _ _ _ _ hm hnd)

theorem entriesOf_cons (fld : StructField) (fs : List StructField) (k : String) :
    entriesOf (fld :: fs) k =
      if fld.Name = k then tagEntries fld.Tag ++ entriesOf fs k else entriesOf fs k := by
  unfold entriesOf
  by_cases h : fld.Name = k <;> simp [List.filter_cons, h]

theorem getFieldMap_loop_lookup (outType : RType) (fs : List StructField)
    (out out' : FieldMap) (h : getFieldMap.loop outType fs out = .ok out') (k : String) :
    out'.lookup k = (lastEntryFor (getTypeName outType) (entriesOf fs k)).or (out.lookup k) := by
  induction fs generalizing out with
  | nil =>
    simp only [getFieldMap.loop, Except.ok.injEq] at h
    subst h
    simp [entriesOf, lastEntryFor]
  | cons fld fs ih =>
    unfold getFieldMap.loop at h
    simp only at h
    rw [entriesOf_cons]
    split at h
    · rename_i htag
      rw [ih _ h]
      by_cases hk : fld.Name = k
      · simp [hk, htag, tagEntries]
      · simp [hk]
    · rename_i htag
      split at h
      · cases h
      · rename_i out1 hm
        rw [ih _ h, maps_lookup _ _ _ _ _ _ hm k]
        by_cases hk : fld.Name = k
        · simp only [hk, if_true]
          rw [lastEntryFor_append, Option.or_assoc]
          simp [tagEntries, htag]
        · simp [hk]

/-- With pairwise distinct field names, the entries found under the name of a field are
the entries of that field's annotation. -/
theorem entriesOf_of_nodup (fs : List StructField) (fld : StructField) (hf : fld ∈ fs)
    (hnd : (fs.map (·.Name)).Nodup) : entriesOf fs fld.Name = tagEntries fld.Tag := by
  induction fs with
  | nil => cases hf
  | cons a fs ih =>
    simp only [List.map_cons, List.nodup_cons] at hnd
    rw [entriesOf_cons]
    rcases List.mem_cons.1 hf with rfl | hf
    · have : entriesOf fs fld.Name = [] := by
        unfold entriesOf
        rw [List.filter_eq_nil_iff.2]
        · rfl
        · intro d hd hname
          exact hnd.1 (List.mem_map.2 ⟨d, hd, by simpa using hname⟩)
      simp [this]
    · have : ¬ a.Name = fld.Name := fun h =>
        hnd.1 (List.mem_map.2 ⟨fld, hf, h.symm⟩)
      rw [if_neg this]
      exact ih hf hnd.2

/-- C8: for source fields whose annotations are all well-formed, `getFieldMap` returns
a table and no error; the table has one entry per key, and it maps the source field
name `f` to `g` exactly when `g` is the field-name of the last entry of the annotation
of `f` whose type-name is the target type's simple name.  A name whose field has an
empty annotation, or no entry for that type name, has no such last entry and so is not
a key. -/
theorem getFieldMap_exact (fs : List StructField) (outType : RType)
    (hwf : ∀ fld ∈ fs, ¬ MalformedTag fld.Tag) :
    ∃ m, getFieldMap fs outType = .ok m ∧ (m.map Prod.fst).Nodup ∧
      ∀ f g, (f, g) ∈ m ↔ lastEntryFor (getTypeName outType) (entriesOf fs f) = some g := by
  cases hr : getFieldMap fs outType with
  | error err =>
    obtain ⟨fld, hf, hmal, -⟩ := getFieldMap_loop_error outType fs [] err hr
    exact absurd hmal (hwf fld hf)
  | ok m =>
    have hkeys : (m.map Prod.fst).Nodup :=
      getFieldMap_loop_keys outType fs [] m hr (by simp)
    refine ⟨m, rfl, hkeys, fun f g => ?_⟩
    rw [FieldMap.mem_iff_lookup m hkeys, getFieldMap_loop_lookup outType fs [] m hr f]
    simp [FieldMap.lookup, Option.or_none]

theorem getFieldMap_exact_witness :
    (∀ fld ∈ declaredFields (.struct testSource), ¬ MalformedTag fld.Tag) ∧
    getTypeName ⟨.ptr (.named "mapper_test.Target2" .struct), []⟩ = "Target2" ∧
    entriesOf (declaredFields (.struct testSource)) "AField"
      = [("Target", "A"), ("Target2", "A")] ∧
    entriesOf (declaredFields (.struct testSource)) "GField" = [] ∧
    getFieldMap (declaredFields (.struct testSource))
        ⟨.ptr (.named "mapper_test.Target2" .struct), []⟩ = .ok [("AField", "A")] ∧
    ∃ m, getFieldMap (declaredFields (.struct testSource))
        ⟨.ptr (.named "mapper_test.Target2" .struct), []⟩ = .ok m ∧
      (m.map Prod.fst).Nodup ∧
      ∀ f g, (f, g) ∈ m ↔
        lastEntryFor (getTypeName ⟨.ptr (.named "mapper_test.Target2" .struct), []⟩)
          (entriesOf (declaredFields (.struct testSource)) f) = some g :=
  ⟨by decide, by decide, by decide, by decide, rfl,
    getFieldMap_exact (declaredFields (.struct testSource))
      ⟨.ptr (.named "mapper_test.Target2" .struct), []⟩ (by decide)⟩

/-- What the loop of `mapValues` leaves behind when it runs to its end: a target field no
entry names is as before, and a target field named by entries that all have the source
field `f` holds the copied value of `f`. -/
theorem loop_copied (src : Struct) (hwt : src.WellTyped) (order : List (String × String))
    (t : Struct) (out' : Iface)
    (h : mapValues.loop (.struct src) order (.ptrStruct t) = (.ok, out')) :
    ∃ t', out' = .ptrStruct t' ∧ ∀ g,
      ((∀ e ∈ order, e.2 ≠ g) → t'.FieldByName g = t.FieldByName g) ∧
      (∀ f sf, (∃ e ∈ order, e.2 = g) → (∀ e ∈ order, e.2 = g → e.1 = f) →
        src.FieldByName f = some sf →
        ∃ tf, t'.FieldByName g = some tf ∧ tf.Val = sf.copied) := by
  induction order generalizing t with
  | nil =>
    simp only [mapValues.loop, Prod.mk.injEq, true_and] at h
    refine ⟨t, h.symm, fun g => ⟨fun _ => rfl, ?_⟩⟩
    rintro f sf ⟨e, he, -⟩
    cases he
  | cons e rest ih =>
    obtain ⟨f1, g1⟩ := e
    obtain ⟨out1, hentry, hrest⟩ := loop_cons_ok _ _ _ _ _ _ h
    obtain ⟨src0, t0, sf1, tf1, v, hsrc, ht0, hsf1, htf1, -, -, hout1, hv⟩ :=
      entry_inr _ _ _ _ _ hentry
    simp only [Iface.struct.injEq] at hsrc
    simp only [Iface.ptrStruct.injEq] at ht0
    subst hsrc ht0 hout1
    obtain ⟨t', ht', hinv⟩ := ih (t.set g1 v) hrest
    refine ⟨t', ht', fun g => ⟨?_, ?_⟩⟩
    · intro hno
      have hg1 : g ≠ g1 := fun hg => hno (f1, g1) (List.mem_cons_self _ _) hg.symm
      rw [(hinv g).1 (fun e he => hno e (List.mem_cons_of_mem _ he))]
      exact FieldByName_set_ne t g1 g v hg1
    · intro f sf hex hall hsf
      by_cases hr : ∃ e ∈ rest, e.2 = g
      · exact (hinv g).2 f sf hr (fun e he => hall e (List.mem_cons_of_mem _ he)) hsf
      · have hno : ∀ e ∈ rest, e.2 ≠ g := fun e he hg => hr ⟨e, he, hg⟩
        obtain ⟨e, he, hg⟩ := hex
        rcases List.mem_cons.1 he with rfl | he
        · simp only at hg
          subst hg
          have hf : f1 = f := hall (f1, g1) (List.mem_cons_self _ _) rfl
          subst hf
          rw [hsf1] at hsf
          simp only [Option.some.injEq] at hsf
          subst hsf
          have hval : v = sf1.copied := hv (FieldByName_wellTyped src hwt _ sf1 hsf1)
          rw [(hinv g1).1 hno, FieldByName_set_eq, htf1]
          exact ⟨_, rfl, hval⟩
        · exact absurd hg (hno e he)

theorem Map_of_mapValues_ok (ρ : FieldMap → List (String × String)) (src tgt : Struct)
    (fieldMap : FieldMap) (out' : Iface)
    (hfm : getFieldMap (declaredFields (.struct src)) ⟨.ptr tgt.typ, []⟩ = .ok fieldMap)
    (h : mapValues (.struct src) (.ptrStruct tgt) (ρ fieldMap) = (.ok, out')) :
    Map ρ (.struct src) (.ptrStruct tgt) = (.ok, out') := by
  have hfm' : getFieldMap (src.fields.map (·.toStructField)) ⟨.ptr tgt.typ, []⟩
      = .ok fieldMap := hfm
  unfold Map
  simp only [TypeOf, RType.Kind, GoType.Kind, ne_eq, not_true_eq_false, if_false]
  have hgf := getFields_struct src
  simp only [TypeOf] at hgf
  rw [hgf]
  simp only [hfm', h]

/-- C2, what the code does instead: the field `AField string`, tagged
`Target:A;Target:B`, has the entry `Target:A` for the target type `Target`; `Map`
returns nil, and afterwards the target field `A` still holds the empty string, not the
value `x` of `AField` (only the last entry for `Target`, `B`, is in the table). -/
theorem scalar_entry_counterexample :
    getTypeName ⟨.ptr abTarget.typ, []⟩ = "Target" ∧
    ("Target", "A") ∈ entriesOf (declaredFields (.struct doubleSource)) "AField" ∧
    (doubleSource.FieldByName "AField").map (fun f => (f.Typ.Kind, f.Val))
      = some (.string, .str "x") ∧
    (Map id (.struct doubleSource) (.ptrStruct abTarget)).1 = .ok ∧
    ∃ tgt', (Map id (.struct doubleSource) (.ptrStruct abTarget)).2 = .ptrStruct tgt' ∧
      (tgt'.FieldByName "A").map (·.Val) = some (.str "") ∧
      (tgt'.FieldByName "B").map (·.Val) = some (.str "x") :=
  ⟨by decide, by decide, by decide, by decide,
    ⟨abTarget.set "B" (.str "x"), by decide, by decide, by decide⟩⟩

/-- C2 as amended: for a well-typed source struct and a target struct, when the table
is built and the copy step `mapValues` ends without error, `Map` returns nil and, for
every table entry `f → g` such that no other entry of the table has the target `g` and
the source field `f` is of a scalar kind, the target field `g` holds after the call the
value of the source field `f` as the copy delivers it: the value itself, except that a
`float32` signalling NaN arrives as the quiet NaN with the same sign and payload. -/
theorem Map_copies_scalar_entry (ρ : FieldMap → List (String × String))
    (hρ : ∀ m, (ρ m).Perm m) (src tgt : Struct) (hwt : src.WellTyped) (fieldMap : FieldMap)
    (hfm : getFieldMap (declaredFields (.struct src)) ⟨.ptr tgt.typ, []⟩ = .ok fieldMap)
    (hcopy : (mapValues (.struct src) (.ptrStruct tgt) (ρ fieldMap)).1 = .ok)
    (f g : String) (sf : Field) (hfg : (f, g) ∈ fieldMap)
    (huniq : ∀ e ∈ fieldMap, e.2 = g → e.1 = f)
    (hsf : src.FieldByName f = some sf) (_hk : sf.Typ.Kind ∈ scalarKinds) :
    ∃ tgt' tf, Map ρ (.struct src) (.ptrStruct tgt) = (.ok, .ptrStruct tgt') ∧
      tgt'.FieldByName g = some tf ∧ tf.Val = sf.copied ∧
      (holdsSignallingNaN sf = false → tf.Val = sf.Val) := by
  have hmv : mapValues (.struct src) (.ptrStruct tgt) (ρ fieldMap)
      = (.ok, (mapValues (.struct src) (.ptrStruct tgt) (ρ fieldMap)).2) := by
    rw [← hcopy]
  have hloop := mapValues_ok_loop _ _ _ _ hmv
  obtain ⟨t', ht', hinv⟩ := loop_copied src hwt (ρ fieldMap) tgt _ hloop
  have hperm := hρ fieldMap
  obtain ⟨tf, htf, hval⟩ := (hinv g).2 f sf ⟨(f, g), hperm.mem_iff.2 hfg, rfl⟩
    (fun e he hg => huniq e (hperm.mem_iff.1 he) hg) hsf
  refine ⟨t', tf, ?_, htf, hval, fun hq => hval.trans (Field.copied_of_not_signalling sf hq)⟩
  rw [← ht']
  exact Map_of_mapValues_ok ρ src tgt fieldMap _ hfm hmv

theorem Map_copies_scalar_entry_witness :
    (∀ m : FieldMap, (m.reverse).Perm m) ∧ testSource.WellTyped ∧
    getFieldMap (declaredFields (.struct testSource)) ⟨.ptr testTarget.typ, []⟩
      = .ok [("AField", "A"), ("BField", "B"), ("CField", "C"), ("DField", "D"),
          ("EField", "E"), ("FField", "F")] ∧
    testSource.FieldByName "DField"
      = some (mkField "DField" (.basic .float32) "Target:D" (.float 0x3f8ccccd)) ∧
    holdsSignallingNaN (mkField "DField" (.basic .float32) "Target:D" (.float 0x3f8ccccd))
      = false ∧
    ∃ tgt' tf, Map List.reverse (.struct testSource) (.ptrStruct testTarget)
        = (.ok, .ptrStruct tgt') ∧
      tgt'.FieldByName "D" = some tf ∧
      tf.Val = (mkField "DField" (.basic .float32) "Target:D" (.float 0x3f8ccccd)).copied ∧
      (holdsSignallingNaN (mkField "DField" (.basic .float32) "Target:D" (.float 0x3f8ccccd))
          = false →
        tf.Val = .float 0x3f8ccccd) :=
  ⟨fun m => List.reverse_perm m, by decide, rfl, by decide, by decide,
    Map_copies_scalar_entry List.reverse (fun m => List.reverse_perm m) testSource testTarget
      (by decide)
      [("AField", "A"), ("BField", "B"), ("CField", "C"), ("DField", "D"),
          ("EField", "E"), ("FField", "F")]
      rfl (by decide) "DField" "D"
      (mkField "DField" (.basic .float32) "Target:D" (.float 0x3f8ccccd))
      (by decide) (by decide) (by decide) (by decide)⟩


/-- The copy of a `float32` passes through `float64`: `Map` returns nil on a source
whose field `DField float32`, tagged `Target:D`, holds the signalling NaN `0x7fa00000`,
and the target field `D` then holds the quiet NaN `0x7fe00000`. -/
theorem Map_quiets_signalling_NaN :
    (nanSource.FieldByName "DField").map (fun f => (f.Typ.Kind, f.Val))
      = some (.float32, .float 0x7fa00000) ∧
    ("Target", "D") ∈ entriesOf (declaredFields (.struct nanSource)) "DField" ∧
    (Map id (.struct nanSource) (.ptrStruct nanTarget)).1 = .ok ∧
    ∃ tgt', (Map id (.struct nanSource) (.ptrStruct nanTarget)).2 = .ptrStruct tgt' ∧
      (tgt'.FieldByName "D").map (·.Val) = some (.float 0x7fe00000) :=
  ⟨by decide, by decide, by decide, ⟨nanTarget.set "D" (.float 0x7fe00000), rfl, rfl⟩⟩
theorem splitOnP_length {α : Type} (p : α → Bool) (xs : List α) :
    (xs.splitOnP p).length = xs.countP p + 1 := by
  induction xs with
  | nil => simp
  | cons x xs ih =>
    rw [List.splitOnP_cons]
    by_cases h : p x = true
    · simp [h, ih]
    · simp only [h, Bool.false_eq_true, if_false, List.length_modifyHead, ih]
      simp [List.countP_cons, h]

theorem Split_length (e : String) (sep : Char) :
    (Split e sep).length = e.toList.count sep + 1 := by
  unfold Split
  rw [List.length_map, List.splitOn, splitOnP_length]
  rfl

theorem splitOnP_last {α : Type} (p : α → Bool) (pre r : List α) (sep : α)
    (hsep : p sep = true) (hr : ∀ x ∈ r, ¬ p x = true) :
    ∃ init, init ≠ [] ∧ (pre ++ sep :: r).splitOnP p = init ++ [r] := by
  induction pre with
  | nil =>
    refine ⟨[[]], by simp, ?_⟩
    rw [List.nil_append, List.splitOnP_cons, if_pos hsep, List.splitOnP_eq_single p r hr]
    rfl
  | cons x pre ih =>
    obtain ⟨init, hne, hinit⟩ := ih
    rw [List.cons_append, List.splitOnP_cons, hinit]
    by_cases h : p x = true
    · exact ⟨[] :: init, by simp, by simp [h]⟩
    · cases init with
      | nil => exact absurd rfl hne
      | cons a init =>
        refine ⟨(x :: a) :: init, by simp, ?_⟩
        simp [h, List.modifyHead]

theorem Split_last (pre r : String) (sep : Char) (hr : sep ∉ r.toList) :
    (Split (pre ++ String.singleton sep ++ r) sep).getLastD "" = r := by
  unfold Split
  obtain ⟨init, -, hinit⟩ := splitOnP_last (fun c => c == sep) pre.toList r.toList sep
    (by simp) (fun x hx hp => hr (by
      have : x = sep := by simpa using hp
      exact this ▸ hx))
  have : (pre ++ String.singleton sep ++ r).toList = pre.toList ++ sep :: r.toList := by
    simp [String.toList, String.singleton]
  rw [this, List.splitOn, hinit, List.map_append, List.map_singleton,
    List.getLastD_eq_getLast?, List.getLast?_append]
  rfl

/-- C13, what the code does instead: called with a pointer to the `Source` of the test
file, `Map` panics in `getFields` (`NumField` of the pointer type) and the target stays
as it was, whereas with the same `Source` passed by value it returns nil. -/
theorem pointer_source_counterexample :
    Map id (.ptrStruct testSource) (.ptrStruct testTarget)
      = (.panic .numFieldOfNonStruct, .ptrStruct testTarget) ∧
    (Map id (.struct testSource) (.ptrStruct testTarget)).1 = .ok ∧
    (Map id (.struct testSource) (.ptrStruct testTarget)).2 ≠ .ptrStruct testTarget :=
  ⟨by decide, by decide, by decide⟩

/-- C13 as amended: with a pointer to a record as the source and a pointer target, `Map`
panics (`NumField` of a non-struct type) and the target is as it was. -/
theorem Map_pointer_source_panics (ρ : FieldMap → List (String × String)) (s : Struct)
    (out : Iface) (outType : RType) (hot : TypeOf out = some outType)
    (hptr : outType.Kind = Kind.ptr) :
    Map ρ (.ptrStruct s) out = (.panic .numFieldOfNonStruct, out) := by
  unfold Map
  simp only [hot, hptr, ne_eq, not_true_eq_false, if_false]
  simp [getFields, TypeOf, RType.Kind, GoType.Kind]

theorem Map_pointer_source_panics_witness :
    TypeOf (.ptrStruct testTarget) = some ⟨.ptr testTarget.typ, []⟩ ∧
    (⟨.ptr testTarget.typ, []⟩ : RType).Kind = Kind.ptr ∧
    Map List.reverse (.ptrStruct testSource) (.ptrStruct testTarget)
      = (.panic .numFieldOfNonStruct, .ptrStruct testTarget) :=
  ⟨rfl, rfl,
    Map_pointer_source_panics List.reverse testSource (.ptrStruct testTarget)
      ⟨.ptr testTarget.typ, []⟩ rfl rfl⟩

/-- C14 (defect in the code): with a pointer to an `int` as the target, `Map` does not
return `errNotPointer`: the check looks at the kind `ptr` only, the table for the type
name `*int` is empty, and `Map` returns nil. -/
theorem Map_accepts_pointer_to_int :
    (TypeOf (.ptrVal (.basic .int) (.int 0))).map (·.toString) = some "*int" ∧
    getFieldMap (declaredFields (.struct testSource)) ⟨.ptr (.basic .int), []⟩ = .ok [] ∧
    Map id (.struct testSource) (.ptrVal (.basic .int) (.int 0))
      = (.ok, .ptrVal (.basic .int) (.int 0)) :=
  ⟨by decide, rfl, by decide⟩

/-- C15, what the code does instead: the entries `Target:` and `:A` split on `:` into
two parts, one of them empty, and the table is built without error; `Target:` records
the empty field name for the target type `Target`. -/
theorem empty_part_counterexample :
    Split "Target:" ':' = ["Target", ""] ∧ Split ":A" ':' = ["", "A"] ∧
    getFieldMap [⟨"AField", .basic .string, "Target:", true⟩] ⟨.ptr testTarget.typ, []⟩
      = .ok [("AField", "")] ∧
    getFieldMap [⟨"AField", .basic .string, ":A", true⟩] ⟨.ptr testTarget.typ, []⟩
      = .ok [] :=
  ⟨by decide, by decide, rfl, rfl⟩

/-- C15 as amended: when every entry of every non-empty annotation contains exactly one
`:`, whether or not the parts around it are empty, `getFieldMap` returns a table and no
error, and the table maps a source field name to the field-name (possibly empty) of the
last entry of its annotation whose type-name is the target type's simple name. -/
theorem getFieldMap_accepts_empty_parts (fs : List StructField) (outType : RType)
    (hcolon : ∀ fld ∈ fs, fld.Tag ≠ "" → ∀ e ∈ Split fld.Tag ';', e.toList.count ':' = 1) :
    ∃ m, getFieldMap fs outType = .ok m ∧
      ∀ f, m.lookup f = lastEntryFor (getTypeName outType) (entriesOf fs f) := by
  cases hr : getFieldMap fs outType with
  | error err =>
    obtain ⟨fld, hf, ⟨hne, e, he, hlen⟩, -⟩ := getFieldMap_loop_error outType fs [] err hr
    rw [Split_length, hcolon fld hf hne e he] at hlen
    exact absurd rfl hlen
  | ok m =>
    refine ⟨m, rfl, fun f => ?_⟩
    rw [getFieldMap_loop_lookup outType fs [] m hr f]
    simp [FieldMap.lookup, Option.or_none]

theorem getFieldMap_accepts_empty_parts_witness :
    (∀ fld ∈ [(⟨"AField", .basic .string, "Target:", true⟩ : StructField)],
      fld.Tag ≠ "" → ∀ e ∈ Split fld.Tag ';', e.toList.count ':' = 1) ∧
    lastEntryFor "Target"
      (entriesOf [(⟨"AField", .basic .string, "Target:", true⟩ : StructField)] "AField")
      = some "" ∧
    ∃ m, getFieldMap [⟨"AField", .basic .string, "Target:", true⟩] ⟨.ptr testTarget.typ, []⟩
        = .ok m ∧
      ∀ f, m.lookup f = lastEntryFor (getTypeName ⟨.ptr testTarget.typ, []⟩)
        (entriesOf [(⟨"AField", .basic .string, "Target:", true⟩ : StructField)] f) :=
  ⟨by decide, by decide,
    getFieldMap_accepts_empty_parts [⟨"AField", .basic .string, "Target:", true⟩]
      ⟨.ptr testTarget.typ, []⟩ (by decide)⟩

/-- C17: when the printed forms of two target types end, after their last `.`, in the
same segment `r`, `getTypeName` returns `r` for both, and `getFieldMap` returns for
both the same table or the same error. -/
theorem getFieldMap_unqualified_name (fs : List StructField) (t1 t2 : RType)
    (q1 q2 r : String) (h1 : t1.toString = q1 ++ "." ++ r) (h2 : t2.toString = q2 ++ "." ++ r)
    (hr : '.' ∉ r.toList) :
    getTypeName t1 = r ∧ getTypeName t2 = r ∧ getFieldMap fs t1 = getFieldMap fs t2 := by
  have hdot : "." = String.singleton '.' := rfl
  have e1 : getTypeName t1 = r := by
    unfold getTypeName
    simp only [h1, hdot]
    exact Split_last q1 r '.' hr
  have e2 : getTypeName t2 = r := by
    unfold getTypeName
    simp only [h2, hdot]
    exact Split_last q2 r '.' hr
  refine ⟨e1, e2, ?_⟩
  have key : ∀ (fs : List StructField) (out : FieldMap),
      getFieldMap.loop t1 fs out = getFieldMap.loop t2 fs out := by
    intro fs
    induction fs with
    | nil => intro out; rfl
    | cons fld fs ih =>
      intro out
      unfold getFieldMap.loop
      simp only [e1, e2, ih]
  exact key fs []

theorem getFieldMap_unqualified_name_witness :
    (⟨.ptr testTarget.typ, []⟩ : RType).toString = "*mapper_test" ++ "." ++ "Target" ∧
    (⟨.ptr (.named "other.Target" .struct), []⟩ : RType).toString
      = "*other" ++ "." ++ "Target" ∧
    '.' ∉ "Target".toList ∧
    getTypeName ⟨.ptr testTarget.typ, []⟩ = "Target" ∧
    getTypeName ⟨.ptr (.named "other.Target" .struct), []⟩ = "Target" ∧
    getFieldMap (declaredFields (.struct testSource)) ⟨.ptr testTarget.typ, []⟩
      = getFieldMap (declaredFields (.struct testSource))
          ⟨.ptr (.named "other.Target" .struct), []⟩ :=
  ⟨by decide, by decide, by decide,
    getFieldMap_unqualified_name (declaredFields (.struct testSource))
      ⟨.ptr testTarget.typ, []⟩ ⟨.ptr (.named "other.Target" .struct), []⟩
      "*mapper_test" "*other" "Target" (by decide) (by decide) (by decide)⟩

/-- What `Map` returns for a source struct and a target of pointer type: the error of
`getFieldMap` if it fails, and otherwise nil unless `mapValues` panics. -/
theorem Map_struct_pointer (ρ : FieldMap → List (String × String)) (src : Struct)
    (out : Iface) (outType : RType) (hot : TypeOf out = some outType)
    (hptr : outType.Kind = Kind.ptr) :
    (∃ err, getFieldMap (declaredFields (.struct src)) outType = .error err ∧
      Map ρ (.struct src) out = (.error err, out)) ∨
    (∃ m, getFieldMap (declaredFields (.struct src)) outType = .ok m ∧
      ((Map ρ (.struct src) out).1 = .ok ∨ ∃ p, (Map ρ (.struct src) out).1 = .panic p)) := by
  have hdecl : declaredFields (.struct src) = src.fields.map (·.toStructField) := rfl
  rw [hdecl]
  unfold Map
  simp only [hot, hptr, ne_eq, not_true_eq_false, if_false, getFields_struct]
  cases hr : getFieldMap (src.fields.map (·.toStructField)) outType with
  | error err => exact .inl ⟨err, rfl, rfl⟩
  | ok m =>
    refine .inr ⟨m, rfl, ?_⟩
    simp only
    split
    · rename_i p out' _
      exact .inr ⟨p, rfl⟩
    · exact .inl rfl

/-- C19: for a source struct and a target with which `Map` returns (does not panic),
`Map` returns an error exactly when the target's type is not a pointer type or the
non-empty annotation of some source field has an entry that does not split on `:` into
exactly two parts, and it returns nil exactly when neither is the case. -/
theorem Map_result_characterisation (ρ : FieldMap → List (String × String)) (src : Struct)
    (out : Iface) (hret : ∀ p, (Map ρ (.struct src) out).1 ≠ .panic p) :
    ((∃ e, (Map ρ (.struct src) out).1 = .error e) ↔
      ((∃ t, TypeOf out = some t ∧ t.Kind ≠ Kind.ptr) ∨
        ∃ fld ∈ src.fields, MalformedTag fld.Tag)) ∧
    ((Map ρ (.struct src) out).1 = .ok ↔
      ¬ ((∃ t, TypeOf out = some t ∧ t.Kind ≠ Kind.ptr) ∨
        ∃ fld ∈ src.fields, MalformedTag fld.Tag)) := by
  cases hot : TypeOf out with
  | none =>
    have : Map ρ (.struct src) out = (.panic .nilType, out) := by
      unfold Map
      simp only [hot]
    exact absurd (by rw [this]) (hret .nilType)
  | some t =>
    by_cases hk : t.Kind = Kind.ptr
    · rcases Map_struct_pointer ρ src out t hot hk with ⟨err, hfm, hmap⟩ | ⟨m, hfm, hmap⟩
      · obtain ⟨d, hd, hmal, -⟩ := getFieldMap_loop_error _ _ _ _ hfm
        obtain ⟨fld, hfld, rfl⟩ := List.mem_map.1 hd
        have hrhs : (∃ t', some t = some t' ∧ t'.Kind ≠ Kind.ptr) ∨
            ∃ fld ∈ src.fields, MalformedTag fld.Tag := .inr ⟨fld, hfld, hmal⟩
        rw [hmap]
        exact ⟨⟨fun _ => hrhs, fun _ => ⟨err, rfl⟩⟩,
          ⟨fun h => (by cases h), fun h => absurd hrhs h⟩⟩
      · have hno : ¬ ((∃ t', some t = some t' ∧ t'.Kind ≠ Kind.ptr) ∨
            ∃ fld ∈ src.fields, MalformedTag fld.Tag) := by
          rintro (⟨t', ht', hk'⟩ | ⟨fld, hfld, hmal⟩)
          · simp only [Option.some.injEq] at ht'
            exact hk' (ht' ▸ hk)
          · exact getFieldMap_loop_ok _ _ _ _ hfm fld.toStructField
              (List.mem_map_of_mem _ hfld) hmal
        have hok : (Map ρ (.struct src) out).1 = .ok := by
          rcases hmap with h | ⟨p, hp⟩
          · exact h
          · exact absurd hp (hret p)
        rw [hok]
        exact ⟨⟨fun ⟨e, he⟩ => (by cases he), fun h => absurd h hno⟩,
          ⟨fun _ => hno, fun _ => rfl⟩⟩
    · have hmap : Map ρ (.struct src) out = (.error (.errNotPointer t.toString), out) := by
        unfold Map
        simp only [hot, ne_eq, hk, not_false_eq_true, if_true]
      have hrhs : (∃ t', some t = some t' ∧ t'.Kind ≠ Kind.ptr) ∨
          ∃ fld ∈ src.fields, MalformedTag fld.Tag := .inl ⟨t, rfl, hk⟩
      rw [hmap]
      exact ⟨⟨fun _ => hrhs, fun _ => ⟨_, rfl⟩⟩,
        ⟨fun h => (by cases h), fun h => absurd hrhs h⟩⟩

theorem Map_result_characterisation_witness :
    (∀ p, (Map id (.struct intSource) (.ptrStruct stringTarget)).1 ≠ .panic p) ∧
    (mapValues (.struct intSource) (.ptrStruct stringTarget) [("BField", "B")]).1
      = .error (.errInvalidConversion "int" "string") ∧
    ((Map id (.struct intSource) (.ptrStruct stringTarget)).1 = .ok ↔
      ¬ ((∃ t, TypeOf (.ptrStruct stringTarget) = some t ∧ t.Kind ≠ Kind.ptr) ∨
        ∃ fld ∈ intSource.fields, MalformedTag fld.Tag)) :=
  have hnp : ∀ p, (Map id (.struct intSource) (.ptrStruct stringTarget)).1 ≠ .panic p := by
    intro p h
    have hok : (Map id (.struct intSource) (.ptrStruct stringTarget)).1 = .ok := by decide
    rw [hok] at h
    cases h
  ⟨hnp, by decide,
    (Map_result_characterisation id intSource (.ptrStruct stringTarget) hnp).2⟩

theorem loop_frame_byName (inp : Iface) (order : List (String × String)) (t : Struct)
    (g : String) (hno : ∀ e ∈ order, e.2 ≠ g) :
    ∃ t', (mapValues.loop inp order (.ptrStruct t)).2 = .ptrStruct t' ∧
      t'.FieldByName g = t.FieldByName g := by
  induction order generalizing t with
  | nil => exact ⟨t, rfl, rfl⟩
  | cons e rest ih =>
    obtain ⟨f1, g1⟩ := e
    unfold mapValues.loop
    split
    · exact ⟨t, rfl, rfl⟩
    · rename_i out' he
      obtain ⟨src, t0, sf, tf, v, -, ht0, -, -, -, -, hout', -⟩ := entry_inr _ _ _ _ _ he
      simp only [Iface.ptrStruct.injEq] at ht0
      subst ht0
      subst hout'
      obtain ⟨t', ht', hfr⟩ := ih (t.set g1 v) (fun e he => hno e (List.mem_cons_of_mem _ he))
      refine ⟨t', ht', hfr.trans ?_⟩
      exact FieldByName_set_ne t g1 g v
        (fun hg => hno (f1, g1) (List.mem_cons_self _ _) hg.symm)

theorem loop_append_ok (inp : Iface) (a b : List (String × String)) (out out' : Iface)
    (h : mapValues.loop inp (a ++ b) out = (.ok, out')) :
    ∃ out1, mapValues.loop inp a out = (.ok, out1) ∧
      mapValues.loop inp b out1 = (.ok, out') := by
  induction a generalizing out with
  | nil => exact ⟨out, rfl, h⟩
  | cons e a ih =>
    obtain ⟨f, g⟩ := e
    obtain ⟨o1, he, hl⟩ := loop_cons_ok _ _ _ _ _ _ h
    obtain ⟨out1, ha, hb⟩ := ih o1 hl
    refine ⟨out1, ?_, hb⟩
    simp only [mapValues.loop, he]
    exact ha

/-- When the loop of `mapValues` runs to its end, a target field holds the copied value
of the source field of the last entry that names it. -/
theorem loop_last_write (src : Struct) (hwt : src.WellTyped)
    (order : List (String × String)) (t : Struct) (out' : Iface)
    (h : mapValues.loop (.struct src) order (.ptrStruct t) = (.ok, out')) :
    ∃ t', out' = .ptrStruct t' ∧ ∀ f g,
      (order.filter (fun e => e.2 = g)).getLast? = some (f, g) →
      ∃ sf tf, src.FieldByName f = some sf ∧ t'.FieldByName g = some tf ∧
        tf.Val = sf.copied := by
  induction order generalizing t with
  | nil =>
    simp only [mapValues.loop, Prod.mk.injEq, true_and] at h
    refine ⟨t, h.symm, fun f g hl => ?_⟩
    simp at hl
  | cons e rest ih =>
    obtain ⟨f1, g1⟩ := e
    obtain ⟨out1, hentry, hrest⟩ := loop_cons_ok _ _ _ _ _ _ h
    obtain ⟨src0, t0, sf1, tf1, v, hsrc, ht0, hsf1, htf1, -, -, hout1, hv⟩ :=
      entry_inr _ _ _ _ _ hentry
    simp only [Iface.struct.injEq] at hsrc
    simp only [Iface.ptrStruct.injEq] at ht0
    subst hsrc ht0 hout1
    obtain ⟨t', ht', hinv⟩ := ih (t.set g1 v) hrest
    refine ⟨t', ht', fun f g hl => ?_⟩
    cases hr : (rest.filter (fun e => e.2 = g)).getLast? with
    | some e' =>
      have : ((f1, g1) :: rest).filter (fun e => e.2 = g) =
          (if g1 = g then [(f1, g1)] else []) ++ rest.filter (fun e => e.2 = g) := by
        by_cases hg : g1 = g <;> simp [List.filter_cons, hg]
      rw [this, List.getLast?_append, hr, Option.or_some] at hl
      exact hinv f g (hr.trans hl)
    | none =>
      have hnil : rest.filter (fun e => e.2 = g) = [] := by
        simpa using hr
      have hno : ∀ e ∈ rest, e.2 ≠ g := by
        intro e he hg
        have : e ∈ rest.filter (fun e => e.2 = g) := List.mem_filter.2 ⟨he, by simpa using hg⟩
        rw [hnil] at this
        cases this
      by_cases hg : g1 = g
      · subst hg
        simp only [List.filter_cons, decide_True, if_true, hnil, List.getLast?_singleton,
          Option.some.injEq, Prod.mk.injEq, and_true] at hl
        subst hl
        obtain ⟨out2, ht2, hfr⟩ := (loop_copied src hwt rest (t.set g1 v) _ hrest)
        rw [ht'] at ht2
        simp only [Iface.ptrStruct.injEq] at ht2
        subst ht2
        have hval : v = sf1.copied := hv (FieldByName_wellTyped src hwt _ sf1 hsf1)
        refine ⟨sf1, { tf1 with Val := v }, hsf1, ?_, hval⟩
        rw [(hfr g1).1 hno, FieldByName_set_eq, htf1]
        rfl
      · simp [List.filter_cons, hg, hnil] at hl

theorem Map_state (ρ : FieldMap → List (String × String)) (src tgt : Struct)
    (fieldMap : FieldMap)
    (hfm : getFieldMap (declaredFields (.struct src)) ⟨.ptr tgt.typ, []⟩ = .ok fieldMap) :
    (Map ρ (.struct src) (.ptrStruct tgt)).2
      = (mapValues.loop (.struct src) (ρ fieldMap) (.ptrStruct tgt)).2 := by
  have hfm' : getFieldMap (src.fields.map (·.toStructField)) ⟨.ptr tgt.typ, []⟩
      = .ok fieldMap := hfm
  rw [← mapValues_snd]
  unfold Map
  simp only [TypeOf, RType.Kind, GoType.Kind, ne_eq, not_true_eq_false, if_false]
  have hgf := getFields_struct src
  simp only [TypeOf] at hgf
  rw [hgf]
  simp only [hfm']
  split
  · rename_i p out' h
    rw [h]
  · rename_i o out' _ h
    rw [h]

theorem Heap.load_store (heap heap' : Heap) (m : Value) (k x : String)
    (h : heap.store m k x = some heap') : heap'.load m k = some x := by
  unfold Heap.store at h
  split at h
  · simp only [Option.some.injEq] at h
    subst h
    simp [Heap.load]
  · cases h

/-- C11 as amended: when `Map` returns nil, the copy step has copied the entry `f → g`
of a map field `f` (it got through the entries up to and including this one without
error) and no entry after it in the iteration writes `g`, the target field `g` holds
the very reference the source field `f` holds: an assignment `m[k] = x` made through
either of the two is read back through the other. -/
theorem Map_aliases_map_field (ρ : FieldMap → List (String × String)) (src tgt : Struct)
    (hwt : src.WellTyped) (fieldMap : FieldMap)
    (hfm : getFieldMap (declaredFields (.struct src)) ⟨.ptr tgt.typ, []⟩ = .ok fieldMap)
    (pre post : List (String × String)) (f g : String) (sf : Field)
    (hord : ρ fieldMap = pre ++ (f, g) :: post)
    (hcopied : (mapValues (.struct src) (.ptrStruct tgt) (pre ++ [(f, g)])).1 = .ok)
    (hpost : ∀ e ∈ post, e.2 ≠ g)
    (hok : (Map ρ (.struct src) (.ptrStruct tgt)).1 = .ok)
    (hsf : src.FieldByName f = some sf) (_hk : sf.Typ.Kind = Kind.map) :
    ∃ tgt' tf, Map ρ (.struct src) (.ptrStruct tgt) = (.ok, .ptrStruct tgt') ∧
      tgt'.FieldByName g = some tf ∧ tf.Val = sf.Val ∧
      ∀ (heap heap' : Heap) (k x : String),
        (heap.store sf.Val k x = some heap' → heap'.load tf.Val k = some x) ∧
        (heap.store tf.Val k x = some heap' → heap'.load sf.Val k = some x) := by
  have hmv : mapValues (.struct src) (.ptrStruct tgt) (pre ++ [(f, g)])
      = (.ok, (mapValues (.struct src) (.ptrStruct tgt) (pre ++ [(f, g)])).2) := by
    rw [← hcopied]
  have hloop := mapValues_ok_loop _ _ _ _ hmv
  obtain ⟨t2, ht2, hlast⟩ := loop_last_write src hwt (pre ++ [(f, g)]) tgt _ hloop
  obtain ⟨sf', tf, hsf', htf, hval⟩ := hlast f g (by
    rw [List.filter_append, List.getLast?_append]
    simp [List.filter_cons])
  rw [hsf] at hsf'
  simp only [Option.some.injEq] at hsf'
  subst hsf'
  have hfull : mapValues.loop (.struct src) (ρ fieldMap) (.ptrStruct tgt)
      = mapValues.loop (.struct src) post (.ptrStruct t2) := by
    rw [hord, show pre ++ (f, g) :: post = (pre ++ [(f, g)]) ++ post by simp]
    rw [← ht2]
    exact loop_append _ _ _ _ _ hloop
  obtain ⟨t', ht', hfr⟩ := loop_frame_byName (.struct src) post t2 g hpost
  have hstate : (Map ρ (.struct src) (.ptrStruct tgt)).2 = .ptrStruct t' := by
    rw [Map_state ρ src tgt fieldMap hfm, hfull, ht']
  have hval' : tf.Val = sf.Val :=
    hval.trans (Field.copied_of_kind_ne sf (by rw [_hk]; decide))
  refine ⟨t', tf, ?_, hfr.trans htf, hval', fun heap heap' k x => ?_⟩
  · rw [← hok, ← hstate]
  · rw [hval']
    exact ⟨Heap.load_store heap heap' _ k x, Heap.load_store heap heap' _ k x⟩

theorem Map_aliases_map_field_witness :
    testSource.WellTyped ∧
    getFieldMap (declaredFields (.struct testSource)) ⟨.ptr testTarget.typ, []⟩
      = .ok [("AField", "A"), ("BField", "B"), ("CField", "C"), ("DField", "D"),
          ("EField", "E"), ("FField", "F")] ∧
    (mapValues (.struct testSource) (.ptrStruct testTarget) ([] ++ [("FField", "F")])).1
      = .ok ∧
    (Map List.reverse (.struct testSource) (.ptrStruct testTarget)).1 = .ok ∧
    testHeap.load (.mapRef (some 0)) "k" = some "v" ∧
    ∃ tgt' tf, Map List.reverse (.struct testSource) (.ptrStruct testTarget)
        = (.ok, .ptrStruct tgt') ∧
      tgt'.FieldByName "F" = some tf ∧ tf.Val = .mapRef (some 0) ∧
      ∀ (heap heap' : Heap) (k x : String),
        (heap.store (.mapRef (some 0)) k x = some heap' → heap'.load tf.Val k = some x) ∧
        (heap.store tf.Val k x = some heap' → heap'.load (.mapRef (some 0)) k = some x) :=
  ⟨by decide, rfl, by decide, by decide, by decide,
    Map_aliases_map_field List.reverse testSource testTarget (by decide)
      [("AField", "A"), ("BField", "B"), ("CField", "C"), ("DField", "D"),
          ("EField", "E"), ("FField", "F")]
      rfl []
      [("EField", "E"), ("DField", "D"), ("CField", "C"), ("BField", "B"), ("AField", "A")]
      "FField" "F"
      (mkField "FField" (.map (.basic .string) (.basic .string)) "Target:F" (.mapRef (some 0)))
      rfl (by decide) (by decide) (by decide) (by decide) rfl⟩

/-- C16, what the code does instead.  First: the source field `DField float32` holds the
signalling NaN `0x7fa00000`; its entry is copied without error and the next entry,
`NField → N`, fails with `errInvalidType`; `mapValues` returns that error and the target
field `D` holds the quiet NaN `0x7fe00000`, not the value of `DField`.  Second: the
target is `struct { Inner; B string }`; the entry `AField → A` is copied without error
and the next entry, `SField → Inner`, fails with `errInvalidType`; the target field
`Inner` of the failing entry is named by no earlier entry, yet its field `A` has been
written. -/
theorem halted_copy_counterexample :
    (mapValues (.struct nanSource) (.ptrStruct nanTarget) [("DField", "D")]
      = (.ok, .ptrStruct (nanTarget.set "D" (.float 0x7fe00000))) ∧
    mapValues (.struct nanSource) (.ptrStruct nanTarget) [("DField", "D"), ("NField", "N")]
      = (.error (.errInvalidType "int64"),
          .ptrStruct (nanTarget.set "D" (.float 0x7fe00000))) ∧
    (nanSource.FieldByName "DField").map (·.Val) = some (.float 0x7fa00000) ∧
    ((nanTarget.set "D" (.float 0x7fe00000)).FieldByName "D").map (·.Val)
      = some (.float 0x7fe00000)) ∧
    (mapValues (.struct innerSource) (.ptrStruct embeddingTarget) [("AField", "A")]
      = (.ok, .ptrStruct (embeddingTarget.set "A" (.str "x"))) ∧
    mapValues (.struct innerSource) (.ptrStruct embeddingTarget)
        [("AField", "A"), ("SField", "Inner")]
      = (.error (.errInvalidType "struct"),
          .ptrStruct (embeddingTarget.set "A" (.str "x"))) ∧
    embeddingTarget.promoted
      = [("Inner", mkField "A" (.basic .string) "" (.str "a0")),
         ("Inner", mkField "C" (.basic .string) "" (.str "c0"))] ∧
    (embeddingTarget.set "A" (.str "x")).promoted
      = [("Inner", mkField "A" (.basic .string) "" (.str "x")),
         ("Inner", mkField "C" (.basic .string) "" (.str "c0"))]) :=
  ⟨⟨by decide, by decide, by decide, by decide⟩, ⟨by decide, by decide, rfl, rfl⟩⟩

/-- C16 as amended: when the entries `pre` are copied without error and the next entry
`(f, g)` of the iteration fails with outcome `o`, `mapValues` ends with `o` whatever
entries follow, and the target is in the state `pre` left it in.  A field named by
entries of `pre` holds the value of the source field of the last of them as the copy
delivers it: the value itself, except that a `float32` signalling NaN arrives as a quiet
NaN.  A promoted field no entry of `pre` names holds the value it held before the call,
and so does such a declared field, unless it is an embedded struct with promoted fields
(whose value is the values of those fields). -/
theorem mapValues_halts_at_first_failure (src t : Struct) (hwt : src.WellTyped)
    (pre post : List (String × String)) (f g : String) (o : Outcome) (out1 : Iface)
    (hpre : mapValues (.struct src) (.ptrStruct t) pre = (.ok, out1))
    (hfail : mapValues.entry (.struct src) out1 f g = .inl o) :
    mapValues (.struct src) (.ptrStruct t) (pre ++ (f, g) :: post) = (o, out1) ∧
    ∃ t1, out1 = .ptrStruct t1 ∧
      (∀ f' g', (pre.filter (fun e => e.2 = g')).getLast? = some (f', g') →
        ∃ sf tf, src.FieldByName f' = some sf ∧ t1.FieldByName g' = some tf ∧
          tf.Val = sf.copied ∧ (holdsSignallingNaN sf = false → tf.Val = sf.Val)) ∧
      (∀ i fld, t.fields.get? i = some fld → (∀ e ∈ pre, e.2 ≠ fld.Name) →
        (∀ p ∈ t.promoted, p.1 ≠ fld.Name) → t1.fields.get? i = some fld) ∧
      (∀ i p, t.promoted.get? i = some p → (∀ e ∈ pre, e.2 ≠ p.2.Name) →
        t1.promoted.get? i = some p) := by
  have hl := mapValues_ok_loop _ _ _ _ hpre
  have hne : o ≠ .ok := fun h => entry_ne_ok _ _ _ _ (h ▸ hfail)
  constructor
  · apply mapValues_of_loop_stop _ _ _ _ _ hne
    rw [loop_append _ _ _ _ _ hl]
    exact loop_stop _ _ _ _ _ _ hfail
  · obtain ⟨t1, ht1, hlast⟩ := loop_last_write src hwt pre t out1 hl
    obtain ⟨t', ht', hag⟩ := loop_agrees (.struct src) pre t
    rw [hl, ht1] at ht'
    simp only [Iface.ptrStruct.injEq] at ht'
    subst ht'
    refine ⟨t1, ht1, ?_, fun i fld hi hno _ => hag.2.1 i fld hi ?_,
      fun i p hi hno => hag.2.2 i p hi ?_⟩
    · intro f' g' hl'
      obtain ⟨sf, tf, hsf, htf, hval⟩ := hlast f' g' hl'
      exact ⟨sf, tf, hsf, htf, hval,
        fun hq => hval.trans (Field.copied_of_not_signalling sf hq)⟩
    · rintro ⟨e, he, hname⟩
      exact hno e he hname
    · rintro ⟨e, he, hname⟩
      exact hno e he hname

theorem mapValues_halts_at_first_failure_witness :
    mixedSource.WellTyped ∧
    mapValues (.struct mixedSource) (.ptrStruct mixedTarget) [("AField", "A")]
      = (.ok, .ptrStruct mixedTargetA) ∧
    mapValues.entry (.struct mixedSource) (.ptrStruct mixedTargetA) "NField" "N"
      = .inl (.error (.errInvalidType "int64")) ∧
    mapValues (.struct mixedSource) (.ptrStruct mixedTarget)
        ([("AField", "A")] ++ ("NField", "N") :: [("FField", "F")])
      = (.error (.errInvalidType "int64"), .ptrStruct mixedTargetA) ∧
    ∃ t1, Iface.ptrStruct mixedTargetA = .ptrStruct t1 ∧
      (∀ f' g', ([("AField", "A")].filter (fun e => e.2 = g')).getLast? = some (f', g') →
        ∃ sf tf, mixedSource.FieldByName f' = some sf ∧ t1.FieldByName g' = some tf ∧
          tf.Val = sf.copied ∧ (holdsSignallingNaN sf = false → tf.Val = sf.Val)) ∧
      (∀ i fld, mixedTarget.fields.get? i = some fld →
        (∀ e ∈ [("AField", "A")], e.2 ≠ fld.Name) →
        (∀ p ∈ mixedTarget.promoted, p.1 ≠ fld.Name) → t1.fields.get? i = some fld) ∧
      (∀ i p, mixedTarget.promoted.get? i = some p →
        (∀ e ∈ [("AField", "A")], e.2 ≠ p.2.Name) → t1.promoted.get? i = some p) :=
  ⟨by decide, by decide, by decide,
    mapValues_halts_at_first_failure mixedSource mixedTarget (by decide) [("AField", "A")]
      [("FField", "F")] "NField" "N" (.error (.errInvalidType "int64"))
      (.ptrStruct mixedTargetA) (by decide) (by decide)⟩

theorem applyWrites_nil (t : Struct) : applyWrites [] t = t := rfl

theorem applyWrites_cons (w : String × Value) (ws : List (String × Value)) (t : Struct) :
    applyWrites (w :: ws) t = applyWrites ws (t.set w.1 w.2) := rfl

theorem applyWrites_concat (ws : List (String × Value)) (w : String × Value) (t : Struct) :
    applyWrites (ws ++ [w]) t = (applyWrites ws t).set w.1 w.2 := by
  simp [applyWrites, List.foldl_append]

theorem applyWrites_shape (ws : List (String × Value)) (t : Struct) :
    (applyWrites ws t).shape = t.shape := by
  induction ws generalizing t with
  | nil => rfl
  | cons w ws ih =>
    rw [applyWrites_cons, ih]
    exact Struct.set_shape t w.1 w.2

/-- A write that is repeated after further writes makes its first occurrence redundant. -/
theorem applyWrites_absorb (ws : List (String × Value)) (g : String) (v : Value)
    (t : Struct) :
    (applyWrites ws (t.set g v)).set g v = (applyWrites ws t).set g v := by
  induction ws using List.reverseRecOn with
  | nil => simp [applyWrites_nil, Struct.set_overwrite]
  | append_singleton ws u ih =>
    rw [applyWrites_concat, applyWrites_concat]
    by_cases h : u.1 = g
    · rw [h, Struct.set_overwrite, Struct.set_overwrite, ih]
    · rw [Struct.set_comm _ g u.1 v u.2 (fun h' => h h'.symm),
        Struct.set_comm _ g u.1 v u.2 (fun h' => h h'.symm), ih]

theorem applyWrites_idem (ws : List (String × Value)) (t : Struct) :
    applyWrites ws (applyWrites ws t) = applyWrites ws t := by
  induction ws using List.reverseRecOn generalizing t with
  | nil => rfl
  | append_singleton ws w ih =>
    rw [applyWrites_concat, applyWrites_concat, applyWrites_absorb, ih]

/-- Whether an entry is copied, the value written and the way it fails depend on the
target only through its shape. -/
theorem entry_sim (inp : Iface) (t u : Struct) (f g : String)
    (hdesc : u.shape = t.shape) :
    (∃ o, mapValues.entry inp (.ptrStruct t) f g = .inl o ∧
      mapValues.entry inp (.ptrStruct u) f g = .inl o) ∨
    (∃ v, mapValues.entry inp (.ptrStruct t) f g = .inr (.ptrStruct (t.set g v)) ∧
      mapValues.entry inp (.ptrStruct u) f g = .inr (.ptrStruct (u.set g v))) := by
  have hd := FieldByName_shape t u g hdesc
  cases inp with
  | struct src =>
    unfold mapValues.entry
    simp only [ValueOf, Indirect, RValue.FieldByName]
    cases hs : src.FieldByName f with
    | none => exact .inl ⟨_, rfl, rfl⟩
    | some sf =>
      cases ht : t.FieldByName g with
      | none =>
        rw [ht] at hd
        have hu : u.FieldByName g = none := by simpa using hd
        rw [hu]
        exact .inl ⟨_, rfl, rfl⟩
      | some tf =>
        rw [ht] at hd
        cases hu : u.FieldByName g with
        | none => rw [hu] at hd; cases hd
        | some uf =>
          rw [hu] at hd
          simp only [Option.map_some', Option.some.injEq] at hd
          have hty : uf.Typ = tf.Typ := congrArg StructField.Typ hd
          have hex : uf.Exported = tf.Exported := congrArg StructField.Exported hd
          simp only [hty]
          by_cases hne : sf.Typ = tf.Typ
          · simp only [hne, ne_eq, not_true_eq_false, if_false]
            rw [← hne]
            cases hk : sf.Typ.Kind <;> simp only [assign, hex]
            all_goals first
              | exact .inl ⟨_, rfl, rfl⟩
              | (cases tf.Exported <;>
                  first | exact .inl ⟨_, rfl, rfl⟩ | exact .inr ⟨_, rfl, rfl⟩)
              | (cases sf.Int <;> cases tf.Exported <;>
                  first | exact .inl ⟨_, rfl, rfl⟩ | exact .inr ⟨_, rfl, rfl⟩)
              | (cases sf.Bool <;> cases tf.Exported <;>
                  first | exact .inl ⟨_, rfl, rfl⟩ | exact .inr ⟨_, rfl, rfl⟩)
              | (cases sf.Float <;> cases tf.Exported <;>
                  first | exact .inl ⟨_, rfl, rfl⟩ | exact .inr ⟨_, rfl, rfl⟩)
              | (cases tf.Exported <;> cases sf.Exported <;>
                  first | exact .inl ⟨_, rfl, rfl⟩ | exact .inr ⟨_, rfl, rfl⟩)
          · simp only [ne_eq, hne, not_false_eq_true, if_true]
            exact .inl ⟨_, rfl, rfl⟩
  | nil => exact .inl ⟨.panic .fieldByNameOfNonStruct, rfl, rfl⟩
  | val _ _ => exact .inl ⟨.panic .fieldByNameOfNonStruct, rfl, rfl⟩
  | ptrStruct _ => exact .inl ⟨.panic .fieldByNameOfNonStruct, rfl, rfl⟩
  | ptrVal _ _ => exact .inl ⟨.panic .fieldByNameOfNonStruct, rfl, rfl⟩
  | nilPtr _ => exact .inl ⟨.panic .fieldByNameOfNonStruct, rfl, rfl⟩

/-- Run on two targets of the same shape, the loop of `mapValues` ends in the same way
and performs the same writes. -/
theorem loop_sim (inp : Iface) (order : List (String × String)) (t u : Struct)
    (hdesc : u.shape = t.shape) :
    ∃ ws o, mapValues.loop inp order (.ptrStruct t) = (o, .ptrStruct (applyWrites ws t)) ∧
      mapValues.loop inp order (.ptrStruct u) = (o, .ptrStruct (applyWrites ws u)) := by
  induction order generalizing t u with
  | nil => exact ⟨[], .ok, rfl, rfl⟩
  | cons e rest ih =>
    obtain ⟨f, g⟩ := e
    rcases entry_sim inp t u f g hdesc with ⟨o, h1, h2⟩ | ⟨v, h1, h2⟩
    · exact ⟨[], o, by simp only [mapValues.loop, h1]; rfl,
        by simp only [mapValues.loop, h2]; rfl⟩
    · have hd' : (u.set g v).shape = (t.set g v).shape := by
        rw [Struct.set_shape, Struct.set_shape, hdesc]
      obtain ⟨ws, o, h1', h2'⟩ := ih (t.set g v) (u.set g v) hd'
      refine ⟨(g, v) :: ws, o, ?_, ?_⟩
      · simp only [mapValues.loop, h1, h1', applyWrites_cons]
      · simp only [mapValues.loop, h2, h2', applyWrites_cons]

theorem loop_idem (inp : Iface) (order : List (String × String)) (out : Iface) :
    (mapValues.loop inp order (mapValues.loop inp order out).2).2
      = (mapValues.loop inp order out).2 := by
  by_cases hout : ∃ t, out = .ptrStruct t
  · obtain ⟨t, rfl⟩ := hout
    obtain ⟨t', ht', hag⟩ := loop_agrees inp order t
    obtain ⟨ws, o, h1, h2⟩ := loop_sim inp order t t' hag.1
    rw [h1] at ht'
    simp only [Iface.ptrStruct.injEq] at ht'
    rw [h1]
    simp only
    rw [ht', h2]
    simp only
    rw [← ht', applyWrites_idem]
  · have hno : ∀ t, out ≠ .ptrStruct t := fun t h => hout ⟨t, h⟩
    rw [loop_other inp order out hno, loop_other inp order out hno]

theorem loop_TypeOf (inp : Iface) (order : List (String × String)) (out : Iface) :
    TypeOf (mapValues.loop inp order out).2 = TypeOf out := by
  by_cases hout : ∃ t, out = .ptrStruct t
  · obtain ⟨t, rfl⟩ := hout
    obtain ⟨t', ht', hag⟩ := loop_agrees inp order t
    rw [ht']
    simp only [TypeOf, Struct.typ, shape_typeName hag.1]
  · have hno : ∀ t, out ≠ .ptrStruct t := fun t h => hout ⟨t, h⟩
    rw [loop_other inp order out hno]

/-- C12, what the code does instead: the two fields of the source both name the target
field `G`.  A first call that ranges over the table in the order `F1, F2` leaves `b` in
`G`; a second call that ranges over it in the order `F2, F1` leaves `a` there. -/
theorem idempotence_counterexample :
    getFieldMap (declaredFields (.struct twoToOneSource)) ⟨.ptr gTarget.typ, []⟩
      = .ok [("F1", "G"), ("F2", "G")] ∧
    (∀ m : FieldMap, (id m).Perm m) ∧ (∀ m : FieldMap, (m.reverse).Perm m) ∧
    Map id (.struct twoToOneSource) (.ptrStruct gTarget)
      = (.ok, .ptrStruct (gTarget.set "G" (.str "b"))) ∧
    Map List.reverse (.struct twoToOneSource)
        (Map id (.struct twoToOneSource) (.ptrStruct gTarget)).2
      = (.ok, .ptrStruct (gTarget.set "G" (.str "a"))) ∧
    (Map List.reverse (.struct twoToOneSource)
        (Map id (.struct twoToOneSource) (.ptrStruct gTarget)).2).2
      ≠ (Map id (.struct twoToOneSource) (.ptrStruct gTarget)).2 :=
  ⟨rfl, fun m => List.Perm.refl m, fun m => List.reverse_perm m, by decide, by decide,
    by decide⟩

/-- C12 as amended: when the second call ranges over the table in the same order as the
first, the target after the two calls is the target after the first call, whatever the
source and the target and however the calls end. -/
theorem Map_idempotent_same_order (ρ : FieldMap → List (String × String))
    (inp out : Iface) :
    (Map ρ inp (Map ρ inp out).2).2 = (Map ρ inp out).2 := by
  rcases Map_snd ρ inp out with h | ⟨outType, fields, fieldMap, hot, hf, hfm, h⟩
  · rw [h, h]
  · have hty : TypeOf (Map ρ inp out).2 = some outType := by
      rw [h, loop_TypeOf, hot]
    rcases Map_snd ρ inp (Map ρ inp out).2 with
      h2 | ⟨outType2, fields2, fieldMap2, hot2, hf2, hfm2, h2⟩
    · exact h2
    · rw [hty] at hot2
      simp only [Option.some.injEq] at hot2
      subst hot2
      rw [hf] at hf2
      simp only [Except.ok.injEq] at hf2
      subst hf2
      rw [hfm] at hfm2
      simp only [Except.ok.injEq] at hfm2
      subst hfm2
      rw [h2, h, loop_idem]

theorem entry_succeeds (src t : Struct) (f g : String) (sf tf : Field)
    (hsf : src.FieldByName f = some sf) (htf : t.FieldByName g = some tf)
    (hty : sf.Typ = tf.Typ) (hk : sf.Typ.Kind ∈ supportedKinds)
    (hv : sf.Val.hasKind sf.Typ.Kind = true) (hexp : tf.Exported = true)
    (hmap : sf.Typ.Kind = Kind.map → sf.Exported = true) :
    mapValues.entry (.struct src) (.ptrStruct t) f g
      = .inr (.ptrStruct (t.set g sf.copied)) := by
  unfold mapValues.entry
  simp only [ValueOf, Indirect, RValue.FieldByName, hsf, htf, hty, ne_eq, not_true_eq_false,
    if_false]
  rw [← hty]
  simp only [supportedKinds, List.mem_cons, List.mem_singleton, List.not_mem_nil,
    or_false] at hk
  rcases hk with hk | hk | hk | hk | hk | hk
  all_goals
    rw [hk] at hv
    cases hval : sf.Val <;> rw [hval] at hv <;> simp [Value.hasKind] at hv
  · simp [hk, assign, hexp, Field.String, Field.copied, hval]
  · simp [hk, assign, hexp, Field.Int, Field.copied, hval]
  · simp [hk, assign, hexp, Field.Bool, Field.copied, hval]
  · simp [hk, assign, hexp, Field.Float, Field.copied, hval]
  · simp [hk, assign, hexp, Field.Float, Field.copied, hval]
  · simp [hk, assign, hexp, hmap hk, Field.copied, hval]

theorem Copyable_of_desc (src t u : Struct) (e : String × String)
    (hdesc : u.shape = t.shape) (h : Copyable src t e) : Copyable src u e := by
  obtain ⟨sf, tf, hsf, htf, hty, hk, hexp, hmap⟩ := h
  obtain ⟨uf, huf, hd⟩ := FieldByName_some_of_desc t u e.2 tf hdesc htf
  exact ⟨sf, uf, hsf, huf, hty.trans (congrArg StructField.Typ hd).symm, hk,
    (congrArg StructField.Exported hd).trans hexp, hmap⟩

/-- When every entry can be copied, the loop of `mapValues` runs to its end and performs,
in order, the write of each entry. -/
theorem loop_total (src : Struct) (hwt : src.WellTyped) (order : List (String × String))
    (t : Struct) (hgood : ∀ e ∈ order, Copyable src t e) :
    mapValues.loop (.struct src) order (.ptrStruct t)
      = (.ok, .ptrStruct (applyWrites (order.map (fun e => (e.2, src.valueOf e.1))) t)) := by
  induction order generalizing t with
  | nil => rfl
  | cons e rest ih =>
    obtain ⟨f, g⟩ := e
    obtain ⟨sf, tf, hsf, htf, hty, hk, hexp, hmap⟩ := hgood (f, g) (List.mem_cons_self _ _)
    have hentry := entry_succeeds src t f g sf tf hsf htf hty hk
      (FieldByName_wellTyped src hwt _ sf hsf) hexp hmap
    have hval : src.valueOf f = sf.copied := by
      simp only [Struct.valueOf] at hsf ⊢
      rw [hsf]
    simp only [mapValues.loop, hentry, List.map_cons, applyWrites_cons, hval]
    apply ih
    intro e he
    exact Copyable_of_desc src t (t.set g sf.copied) e (Struct.set_shape t g sf.copied)
      (hgood e (List.mem_cons_of_mem _ he))

theorem applyWrites_perm (ws ws' : List (String × Value)) (t : Struct)
    (hnd : (ws.map Prod.fst).Nodup) (hp : ws.Perm ws') :
    applyWrites ws t = applyWrites ws' t := by
  unfold applyWrites
  apply List.Perm.foldl_eq' hp
  intro x hx y hy z
  by_cases hxy : x = y
  · rw [hxy]
  · have hne : x.1 ≠ y.1 := fun h =>
      hxy (List.inj_on_of_nodup_map hnd hx hy h)
    exact (Struct.set_comm z y.1 x.1 y.2 x.2 (Ne.symm hne))

theorem mapValues_of_loop_ok (inp : Iface) (t t' : Struct) (m : List (String × String))
    (h : mapValues.loop inp m (.ptrStruct t) = (.ok, .ptrStruct t')) :
    mapValues inp (.ptrStruct t) m = (.ok, .ptrStruct t') := by
  unfold mapValues
  rw [h]
  rfl

/-- C18, what the code does instead: the table `AField → a` names existing fields of
the same type `string`, and `a` is the only target name, but `a` is unexported:
`mapValues` panics in `SetString` and returns nothing. -/
theorem unexported_target_counterexample :
    (lowerSource.FieldByName "AField").map (·.Typ) = some (.basic .string) ∧
    (lowerTarget.FieldByName "a").map (·.Typ) = some (.basic .string) ∧
    Kind.string ∈ supportedKinds ∧
    (([("AField", "a")] : FieldMap).map Prod.snd).Nodup ∧
    mapValues (.struct lowerSource) (.ptrStruct lowerTarget) [("AField", "a")]
      = (.panic .notAssignable, .ptrStruct lowerTarget) :=
  ⟨by decide, by decide, by decide, by decide, by decide⟩

/-- C18 as amended: for a well-typed source, a target passed by pointer and a table
whose target names are pairwise distinct and whose every entry names existing fields of
equal type and supported kind, with the target field exported (and the source field
too when it is a map): for every two iteration orders of the table `mapValues` returns
nil and leaves the same target, in which, for every entry `(f, g)`, the field `g` holds
the value of the source field `f` as the copy delivers it: the value itself, except that
a `float32` signalling NaN arrives as a quiet NaN. -/
theorem mapValues_postcondition (src t : Struct) (hwt : src.WellTyped) (table : FieldMap)
    (hdist : (table.map Prod.snd).Nodup) (hgood : ∀ e ∈ table, Copyable src t e)
    (order1 order2 : List (String × String)) (h1 : order1.Perm table)
    (h2 : order2.Perm table) :
    ∃ t', mapValues (.struct src) (.ptrStruct t) order1 = (.ok, .ptrStruct t') ∧
      mapValues (.struct src) (.ptrStruct t) order2 = (.ok, .ptrStruct t') ∧
      ∀ e ∈ table, ∃ sf tf, src.FieldByName e.1 = some sf ∧
        t'.FieldByName e.2 = some tf ∧ tf.Val = sf.copied ∧
        (holdsSignallingNaN sf = false → tf.Val = sf.Val) := by
  have hl1 := loop_total src hwt order1 t (fun e he => hgood e (h1.mem_iff.1 he))
  have hl2 := loop_total src hwt order2 t (fun e he => hgood e (h2.mem_iff.1 he))
  have hnd1 : (order1.map Prod.snd).Nodup := (h1.map Prod.snd).nodup_iff.2 hdist
  have hws : ((order1.map (fun e => (e.2, src.valueOf e.1))).map Prod.fst).Nodup := by
    rw [List.map_map]
    exact hnd1
  have heq : applyWrites (order2.map (fun e => (e.2, src.valueOf e.1))) t
      = applyWrites (order1.map (fun e => (e.2, src.valueOf e.1))) t :=
    (applyWrites_perm _ _ t hws ((h1.trans h2.symm).map _)).symm
  rw [heq] at hl2
  refine ⟨_, mapValues_of_loop_ok _ _ _ _ hl1, mapValues_of_loop_ok _ _ _ _ hl2, ?_⟩
  intro e he
  obtain ⟨sf, tf, hsf, -⟩ := hgood e he
  obtain ⟨t', ht', hinv⟩ := loop_copied src hwt order1 t _ hl1
  simp only [Iface.ptrStruct.injEq] at ht'
  obtain ⟨tf', htf', hval⟩ := (hinv e.2).2 e.1 sf ⟨e, h1.mem_iff.2 he, rfl⟩
    (fun e' he' hg => by
      have := List.inj_on_of_nodup_map hnd1 he' (h1.mem_iff.2 he) hg
      rw [this]) hsf
  exact ⟨sf, tf', hsf, ht' ▸ htf', hval,
    fun hq => hval.trans (Field.copied_of_not_signalling sf hq)⟩

theorem mapValues_postcondition_witness :
    testSource.WellTyped ∧
    (([("AField", "A"), ("BField", "B"), ("FField", "F")] : FieldMap).map Prod.snd).Nodup ∧
    (∀ e ∈ ([("AField", "A"), ("BField", "B"), ("FField", "F")] : FieldMap),
      Copyable testSource testTarget e) ∧
    ∃ t', mapValues (.struct testSource) (.ptrStruct testTarget)
        [("FField", "F"), ("AField", "A"), ("BField", "B")] = (.ok, .ptrStruct t') ∧
      mapValues (.struct testSource) (.ptrStruct testTarget)
        [("BField", "B"), ("AField", "A"), ("FField", "F")] = (.ok, .ptrStruct t') ∧
      ∀ e ∈ ([("AField", "A"), ("BField", "B"), ("FField", "F")] : FieldMap),
        ∃ sf tf, testSource.FieldByName e.1 = some sf ∧
          t'.FieldByName e.2 = some tf ∧ tf.Val = sf.copied ∧
          (holdsSignallingNaN sf = false → tf.Val = sf.Val) :=
  have hgood : ∀ e ∈ ([("AField", "A"), ("BField", "B"), ("FField", "F")] : FieldMap),
      Copyable testSource testTarget e := by
    intro e he
    simp only [List.mem_cons, List.mem_singleton, List.not_mem_nil, or_false] at he
    rcases he with rfl | rfl | rfl
    · exact ⟨_, _, rfl, rfl, rfl, by decide, rfl, by decide⟩
    · exact ⟨_, _, rfl, rfl, rfl, by decide, rfl, by decide⟩
    · exact ⟨_, _, rfl, rfl, rfl, by decide, rfl, by decide⟩
  ⟨by decide, by decide, hgood,
    mapValues_postcondition testSource testTarget (by decide)
      [("AField", "A"), ("BField", "B"), ("FField", "F")] (by decide) hgood
      [("FField", "F"), ("AField", "A"), ("BField", "B")]
      [("BField", "B"), ("AField", "A"), ("FField", "F")] (by decide) (by decide)⟩

/-- C11, what the code does instead: both map fields `M1` and `M2` name the target field
`F`.  `Map` returns nil and the copy step copies both entries without error, `M1` first
and `M2` after it; afterwards `F` holds the map of `M2`, so an assignment made through
the map of `M1`, which was copied too, is not read back through `F`. -/
theorem map_alias_counterexample :
    getFieldMap (declaredFields (.struct twoMapSource)) ⟨.ptr mapTarget.typ, []⟩
      = .ok [("M1", "F"), ("M2", "F")] ∧
    mapValues (.struct twoMapSource) (.ptrStruct mapTarget) [("M1", "F")]
      = (.ok, .ptrStruct (mapTarget.set "F" (.mapRef (some 1)))) ∧
    mapValues (.struct twoMapSource) (.ptrStruct mapTarget) [("M1", "F"), ("M2", "F")]
      = (.ok, .ptrStruct (mapTarget.set "F" (.mapRef (some 2)))) ∧
    Map id (.struct twoMapSource) (.ptrStruct mapTarget)
      = (.ok, .ptrStruct (mapTarget.set "F" (.mapRef (some 2)))) ∧
    ((mapTarget.set "F" (.mapRef (some 2))).FieldByName "F").map (·.Val)
      = some (.mapRef (some 2)) ∧
    (twoMapSource.FieldByName "M1").map (·.Val) = some (.mapRef (some 1)) ∧
    (emptyHeap.store (.mapRef (some 1)) "k" "v2").map
        (fun heap' => heap'.load (.mapRef (some 2)) "k") = some none :=
  ⟨rfl, by decide, by decide, by decide, by decide, by decide, by decide⟩

end Mapper
